import Mathlib

/-!
Formal model of the CSV-to-relational ETL pipeline with embedding-augmented
storage of the `hackathon_gbd` repository (`scripts/load_filtered_csvs.py`,
`scripts/pgvector_ingest_and_query.py`, `scripts/pgvector_text_distance.py`),
together with proofs of the properties documented in its specification.

Modelling conventions:
* Python strings are Lean `String` values; the character-level helpers below
  model the Python string methods used by the scripts (ASCII-faithful).
* `decimal.Decimal` values and Python floats are modelled by their exact
  rational values in `ℚ`; the special values `NaN` and `Infinity`, which none
  of the modelled inputs produce, are outside the model.
* A Python function that may raise returns `Except PyErr`; a caught exception
  appears as a `match` on the `.error` case, mirroring `try/except` blocks.
* Database rows are records; the loaders are pure functions from the parsed
  CSV rows to the list of tuples handed to the bulk `INSERT`.
-/

/-- Exception kinds raised by the library calls the scripts invoke:
`decimal.InvalidOperation` from the `Decimal` constructor and `ValueError`
from `int()`, `datetime.strptime` and the `datetime` constructor. -/

inductive PyErr where
  | invalidOperation
  | valueError
deriving DecidableEq

/-! ## Character and string helpers (models of Python `str` methods) -/

/-- Strip of leading and trailing whitespace on a character list. -/

def pyStripList (cs : List Char) : List Char :=
  ((cs.dropWhile Char.isWhitespace).reverse.dropWhile Char.isWhitespace).reverse

/-- Model of Python `s.strip()`: remove leading and trailing whitespace. -/

def pyStrip (s : String) : String :=
  String.mk (pyStripList s.toList)

/-- Strip of leading and trailing characters drawn from `set`, the model of
Python `s.strip(chars)`. -/

def pyStripSet (set : List Char) (cs : List Char) : List Char :=
  ((cs.dropWhile (set.contains ·)).reverse.dropWhile (set.contains ·)).reverse

/-- Model of Python `s.upper()` (ASCII case mapping). -/

def pyUpper (s : String) : String :=
  String.mk (s.toList.map Char.toUpper)

/-- Model of Python `s.lower()` (ASCII case mapping). -/

def pyLower (s : String) : String :=
  String.mk (s.toList.map Char.toLower)

/-- Containment of `needle` as a contiguous run inside `hay`. -/

def listHasRun (needle : List Char) : List Char → Bool
  | [] => needle.isEmpty
  | c :: rest => needle.isPrefixOf (c :: rest) || listHasRun needle rest

/-- Model of the Python substring test `needle in hay`. -/

def strContains (hay needle : String) : Bool :=
  listHasRun needle.toList hay.toList

/-- Model of Python `s.endswith(suffix)`. -/

def pyEndsWith (s suffix : String) : Bool :=
  suffix.toList.isSuffixOf s.toList

/-- The superscript digit characters: Unicode `Numeric_Type=Digit` characters
that Python `str.isdigit()` accepts but `int()` (which reads only
`Numeric_Type=Decimal` digits) rejects. Python accepts further non-ASCII
digit characters; the theorems below quantify over ASCII strings wherever
that difference could matter. -/

def superscriptDigits : List Char :=
  ['⁰', '¹', '²', '³', '⁴', '⁵', '⁶', '⁷', '⁸', '⁹']

/-- Model of the per-character Python `ch.isdigit()` test: ASCII digits and
the non-decimal digit characters. -/

def pyCharIsdigit (c : Char) : Bool :=
  c.isDigit || superscriptDigits.contains c

/-- Model of Python `s.isdigit()`: nonempty and every character a digit
character (decimal or not). -/

def pyIsdigit (s : String) : Bool :=
  !s.toList.isEmpty && s.toList.all pyCharIsdigit

/-- Numeric value of an ASCII digit character. -/

def digitVal (c : Char) : Nat := c.toNat - 48

/-- Value of a big-endian ASCII digit run, as Python `int()` computes it. -/

def charsVal (cs : List Char) : Nat :=
  cs.foldl (fun a c => 10 * a + digitVal c) 0

/-! ## Numeric string parsing (model of `decimal.Decimal` and `float`) -/

/-- Value of a significand with integer digits `ds` and fraction digits `fs`. -/

def sigVal (neg : Bool) (ds fs : List Char) : ℚ :=
  (if neg then -1 else 1) * ((charsVal ds : ℚ) + (charsVal fs : ℚ) / 10 ^ fs.length)

/-- Application of a decimal exponent to a parsed significand value. -/

def applyExp (v : ℚ) (expNeg : Bool) (e : Nat) : ℚ :=
  if expNeg then v / 10 ^ e else v * 10 ^ e

/-- Parse of `[sign] digits` making up an exponent, then application to `v`. -/

def parseSignedExpDigits (v : ℚ) (cs : List Char) : Option ℚ :=
  match cs with
  | '+' :: r => if !r.isEmpty && r.all Char.isDigit then some (applyExp v false (charsVal r)) else none
  | '-' :: r => if !r.isEmpty && r.all Char.isDigit then some (applyExp v true (charsVal r)) else none
  | r => if !r.isEmpty && r.all Char.isDigit then some (applyExp v false (charsVal r)) else none

/-- Parse of an optional exponent clause (`e`/`E`, optional sign, digits) at the
end of a numeric string, applied to the already-parsed significand value. -/

def parseExpTail (v : ℚ) : List Char → Option ℚ
  | [] => some v
  | 'e' :: r => parseSignedExpDigits v r
  | 'E' :: r => parseSignedExpDigits v r
  | _ => none

/-- Split of an optional leading sign from a numeric string. -/

def splitSign (cs : List Char) : Bool × List Char :=
  match cs with
  | '+' :: r => (false, r)
  | '-' :: r => (true, r)
  | r => (false, r)

/-- Parse of the part of a numeric string after the sign: digits with an
optional dot-separated fraction (at least one digit overall), then an
optional exponent. -/

def parseNumericCore (neg : Bool) (cs1 : List Char) : Option ℚ :=
  let ds := cs1.takeWhile Char.isDigit
  let rest := cs1.dropWhile Char.isDigit
  match rest with
  | '.' :: r2 =>
    let fs := r2.takeWhile Char.isDigit
    let rest2 := r2.dropWhile Char.isDigit
    if ds.isEmpty && fs.isEmpty then none
    else parseExpTail (sigVal neg ds fs) rest2
  | r2 =>
    if ds.isEmpty then none
    else parseExpTail (sigVal neg ds []) r2

/-- Parse of a decimal numeric string: optional sign, digits with an optional
dot-separated fraction (at least one digit overall), optional exponent.
This is the numeric core of the grammars of `decimal.Decimal` and `float`;
`none` models a raised parse error. -/

def parseNumeric (cs : List Char) : Option ℚ :=
  parseNumericCore (splitSign cs).1 (splitSign cs).2

/-- Model of the `decimal.Decimal` constructor on a string: leading and
trailing whitespace is stripped, underscores are removed throughout, then the
numeric grammar is applied; failure raises `InvalidOperation`. -/

def Decimal_ofString (s : String) : Except PyErr ℚ :=
  match parseNumeric ((pyStripList s.toList).filter (fun c => c ≠ '_')) with
  | some q => .ok q
  | none => .error .invalidOperation

/-- Model of Python `int(s)` on the strings `to_int` feeds it: accepts a
nonempty run of decimal digits (here the ASCII digits), and raises
`ValueError` on an empty string or on any non-decimal character — in
particular on the superscript digits, which pass `str.isdigit()` but are not
`Numeric_Type=Decimal`. -/

def int_ofString (s : String) : Except PyErr Int :=
  if !s.toList.isEmpty && s.toList.all Char.isDigit then .ok (charsVal s.toList : Int)
  else .error .valueError

/-! ## Value coercion functions (`scripts/load_filtered_csvs.py`) -/

/-- `to_decimal` from `scripts/load_filtered_csvs.py`: strip, return null on
empty/`NA`/`NULL` (case-insensitive), drop all dots (thousands separators),
turn commas into dots, then parse with `Decimal`, catching
`InvalidOperation`. -/

def to_decimal (s? : Option String) : Except PyErr (Option ℚ) :=
  match s? with
  | none => .ok none
  | some s0 =>
    let s := pyStrip s0
    if s = "" ∨ pyUpper s = "NA" ∨ pyUpper s = "NULL" then .ok none
    else
      let s2 := String.mk (s.toList.filter (fun c => c ≠ '.'))
      let s3 := String.mk (s2.toList.map (fun c => if c = ',' then '.' else c))
      match Decimal_ofString s3 with
      | .ok q => .ok (some q)
      | .error .invalidOperation => .ok none
      | .error e => .error e

/-- `to_int` from `scripts/load_filtered_csvs.py`: a stripped string passing
`isdigit` is handed to `int()` directly — outside any `try` block, so an
exception there escapes; otherwise the `isdigit` characters are extracted and
parsed with every exception caught, yielding null. -/

def to_int (s? : Option String) : Except PyErr (Option Int) :=
  match s? with
  | none => .ok none
  | some s0 =>
    let s := pyStrip s0
    if s = "" ∨ pyIsdigit s = false then
      match int_ofString (String.mk (s.toList.filter pyCharIsdigit)) with
      | .ok n => .ok (some n)
      | .error _ => .ok none
    else
      match int_ofString s with
      | .ok n => .ok (some n)
      | .error e => .error e

/-! ## Date and timestamp parsing (model of `datetime.strptime`) -/

/-- Calendar date produced by `datetime.strptime(...).date()`. -/

structure PyDate where
  year : Nat
  month : Nat
  day : Nat
deriving DecidableEq

/-- Timestamp produced by `datetime.strptime` (time parts default to zero). -/

structure PyDateTime where
  year : Nat
  month : Nat
  day : Nat
  hour : Nat
  minute : Nat
  second : Nat
deriving DecidableEq

/-- Gregorian leap-year test, as in the `datetime` module. -/

def isLeapYear (y : Nat) : Bool :=
  (y % 4 = 0 && y % 100 ≠ 0) || y % 400 = 0

/-- Days in a month, as validated by the `datetime` constructor. -/

def daysInMonth (y m : Nat) : Nat :=
  if m = 2 then (if isLeapYear y then 29 else 28)
  else if m = 4 ∨ m = 6 ∨ m = 9 ∨ m = 11 then 30
  else 31

/-- One alternative of a `strptime` directive pattern: consume characters from
the front, returning the numeric field value and the remaining characters. -/

abbrev StrpAlt := List Char → Option (Nat × List Char)

/-- A `strptime` directive: its regex alternatives, tried left to right with
backtracking into the rest of the format. -/

abbrev StrpDir := List StrpAlt

/-- Alternative matching one digit character with value in `[lo, hi]`. -/

def alt1 (lo hi : Nat) : StrpAlt := fun cs =>
  match cs with
  | a :: rest =>
    if a.isDigit then
      (if lo ≤ digitVal a ∧ digitVal a ≤ hi then some (digitVal a, rest) else none)
    else none
  | [] => none

/-- Alternative matching two digit characters with combined value in
`[lo, hi]`. -/

def alt2 (lo hi : Nat) : StrpAlt := fun cs =>
  match cs with
  | a :: b :: rest =>
    if a.isDigit && b.isDigit then
      (if lo ≤ 10 * digitVal a + digitVal b ∧ 10 * digitVal a + digitVal b ≤ hi then
        some (10 * digitVal a + digitVal b, rest)
      else none)
    else none
  | _ => none

/-- Alternative matching exactly four digit characters (the `%Y` regex). -/

def alt4 : StrpAlt := fun cs =>
  match cs with
  | a :: b :: c :: d :: rest =>
    if a.isDigit && b.isDigit && c.isDigit && d.isDigit then
      some (charsVal [a, b, c, d], rest)
    else none
  | _ => none

/-- The `%Y` directive: four digits. -/

def dirY : StrpDir := [alt4]

/-- The `%m` directive: regex `1[0-2]|0[1-9]|[1-9]`. -/

def dirM : StrpDir := [alt2 10 12, alt2 1 9, alt1 1 9]

/-- The `%d` directive: regex `3[01]|[12][0-9]|0[1-9]|[1-9]`. -/

def dirD : StrpDir := [alt2 30 31, alt2 10 29, alt2 1 9, alt1 1 9]

/-- The `%H` directive: regex `2[0-3]|[0-1][0-9]|[0-9]`. -/

def dirH : StrpDir := [alt2 20 23, alt2 0 19, alt1 0 9]

/-- The `%M` directive: regex `[0-5][0-9]|[0-9]`. -/

def dirMin : StrpDir := [alt2 0 59, alt1 0 9]

/-- The `%S` directive: regex `6[0-1]|[0-5][0-9]|[0-9]`. -/

def dirS : StrpDir := [alt2 60 61, alt2 0 59, alt1 0 9]

/-- A literal separator character in the format string. -/

def dirLit (c : Char) : StrpDir :=
  [fun cs =>
    match cs with
    | c' :: rest => if c' = c then some (0, rest) else none
    | [] => none]

/-- Backtracking match of a directive sequence against the whole input, the
model of the anchored regex `strptime` compiles a format to (with the final
full-consumption length check). Alternatives are tried left to right. -/

def matchFields (fields : List StrpDir) : List Char → Option (List Nat) :=
  fields.foldr
    (fun f k cs =>
      f.findSome? (fun alt => (alt cs).bind (fun vr => (k vr.2).map (vr.1 :: ·))))
    (fun cs => if cs.isEmpty then some [] else none)

/-- Model of `datetime.strptime(s, "%Y%m%d").date()`: match the compiled
regex, then validate through the `datetime` constructor (year at least 1, day
within the month); failure raises `ValueError`. -/

def strptime_Ymd (s : String) : Except PyErr PyDate :=
  match matchFields [dirY, dirM, dirD] s.toList with
  | some [y, m, d] =>
    if 1 ≤ y ∧ d ≤ daysInMonth y m then .ok ⟨y, m, d⟩ else .error .valueError
  | _ => .error .valueError

/-- Model of `datetime.strptime(s, "%Y-%m-%d %H:%M:%S")`. -/

def strptime_ts_space (s : String) : Except PyErr PyDateTime :=
  match matchFields [dirY, dirLit '-', dirM, dirLit '-', dirD, dirLit ' ',
      dirH, dirLit ':', dirMin, dirLit ':', dirS] s.toList with
  | some [y, _, m, _, d, _, hh, _, mi, _, ss] =>
    if 1 ≤ y ∧ d ≤ daysInMonth y m ∧ ss ≤ 59 then .ok ⟨y, m, d, hh, mi, ss⟩
    else .error .valueError
  | _ => .error .valueError

/-- Model of `datetime.strptime(s, "%Y-%m-%dT%H:%M:%S")`. -/

def strptime_ts_T (s : String) : Except PyErr PyDateTime :=
  match matchFields [dirY, dirLit '-', dirM, dirLit '-', dirD, dirLit 'T',
      dirH, dirLit ':', dirMin, dirLit ':', dirS] s.toList with
  | some [y, _, m, _, d, _, hh, _, mi, _, ss] =>
    if 1 ≤ y ∧ d ≤ daysInMonth y m ∧ ss ≤ 59 then .ok ⟨y, m, d, hh, mi, ss⟩
    else .error .valueError
  | _ => .error .valueError

/-- Model of `datetime.strptime(s, "%Y-%m-%d")` (time parts default to 0). -/

def strptime_date_only (s : String) : Except PyErr PyDateTime :=
  match matchFields [dirY, dirLit '-', dirM, dirLit '-', dirD] s.toList with
  | some [y, _, m, _, d] =>
    if 1 ≤ y ∧ d ≤ daysInMonth y m then .ok ⟨y, m, d, 0, 0, 0⟩
    else .error .valueError
  | _ => .error .valueError

/-- `parse_date_yyyymmdd` from `scripts/load_filtered_csvs.py`: falsy input is
null, a stripped-empty string is null, otherwise `strptime` with `%Y%m%d`,
catching `ValueError`. -/

def parse_date_yyyymmdd (s? : Option String) : Except PyErr (Option PyDate) :=
  match s? with
  | none => .ok none
  | some s0 =>
    if s0 = "" then .ok none
    else
      let s := pyStrip s0
      if s = "" then .ok none
      else
        match strptime_Ymd s with
        | .ok d => .ok (some d)
        | .error .valueError => .ok none
        | .error e => .error e

/-- The format-trying loop inside `parse_ts`: first successful parse wins,
`ValueError` moves to the next format, exhaustion yields null. -/

def tryTsFormats (fmts : List (String → Except PyErr PyDateTime)) (s : String) :
    Except PyErr (Option PyDateTime) :=
  match fmts with
  | [] => .ok none
  | f :: rest =>
    match f s with
    | .ok d => .ok (some d)
    | .error .valueError => tryTsFormats rest s
    | .error e => .error e

/-- `parse_ts` from `scripts/load_filtered_csvs.py`: falsy input is null, a
stripped-empty string is null, otherwise the three formats are tried in
order. -/

def parse_ts (s? : Option String) : Except PyErr (Option PyDateTime) :=
  match s? with
  | none => .ok none
  | some s0 =>
    if s0 = "" then .ok none
    else
      let s := pyStrip s0
      if s = "" then .ok none
      else tryTsFormats [strptime_ts_space, strptime_ts_T, strptime_date_only] s

/-! ## Fixed-point decimal rendering and the pgvector literal -/

/-- ASCII character of a decimal digit. -/

def digitChar (d : Nat) : Char := Char.ofNat (48 + d)

/-- Little-endian decimal digits of `n`, with explicit fuel (first argument)
to keep the recursion structural; `fuel ≥ n` suffices. -/

def natDigitsRev : Nat → Nat → List Nat
  | 0, _ => []
  | _ + 1, 0 => []
  | fuel + 1, n + 1 => ((n + 1) % 10) :: natDigitsRev fuel ((n + 1) / 10)

/-- Big-endian decimal digit characters of `n` (`"0"` for zero), as Python
renders a nonnegative integer. -/

def natChars (n : Nat) : List Char :=
  if n = 0 then ['0'] else ((natDigitsRev n n).map digitChar).reverse

/-- Left-padding with zeros to `k` characters. -/

def padZeros (k : Nat) (ds : List Char) : List Char :=
  List.replicate (k - ds.length) '0' ++ ds

/-- Rounding of a rational to the nearest integer, ties to even — the rounding
Python applies when formatting a float with a fixed number of decimals. -/

def roundHalfEven (q : ℚ) : ℤ :=
  if q - (q.floor : ℚ) < 1 / 2 then q.floor
  else if 1 / 2 < q - (q.floor : ℚ) then q.floor + 1
  else if q.floor % 2 = 0 then q.floor else q.floor + 1

/-- Model of `f"{float(x):.10f}"`: sign, integer digits, dot, exactly ten
fraction digits. The inputs at both call sites are Python floats, whose exact
values are rationals, so the `float(x)` coercion is the identity here. -/

def formatFixed10 (x : ℚ) : List Char :=
  let n := roundHalfEven (x * 10 ^ 10)
  let m := n.natAbs
  (if x < 0 then ['-'] else []) ++
    natChars (m / 10 ^ 10) ++ '.' :: padZeros 10 (natChars (m % 10 ^ 10))

/-- Comma-joining of rendered components, the model of `",".join(...)`. -/

def joinComma : List (List Char) → List Char
  | [] => []
  | [p] => p
  | p :: ps => p ++ ',' :: joinComma ps

/-- `to_pgvector_literal` from `scripts/pgvector_ingest_and_query.py` and
`scripts/load_filtered_csvs.py`: bracketed, comma-separated, each component
formatted with ten fraction digits. -/

def to_pgvector_literal (vec : List ℚ) : String :=
  String.mk ('[' :: joinComma (vec.map formatFixed10) ++ [']'])

/-- Model of Python `s.split(",")` at character level. -/

def splitComma : List Char → List (List Char)
  | [] => [[]]
  | c :: rest =>
    if c = ',' then [] :: splitComma rest
    else
      match splitComma rest with
      | p :: ps => (c :: p) :: ps
      | [] => [[c]]

/-- The round-trip parse used by the repository tests:
`[float(x) for x in lit.strip("[]").split(",")]`, with the empty content read
as the empty vector. -/

def parse_vector_literal (s : String) : Option (List ℚ) :=
  let cs := pyStripSet ['[', ']'] s.toList
  if cs.isEmpty then some []
  else (splitComma cs).mapM parseNumeric

/-! ## Dummy embedding (`scripts/pgvector_ingest_and_query.py`) -/

/-- Model of `math.sqrt` on the exact rational values of Python floats: exact
on perfect rational squares — the only arguments at which any theorem below
inspects its value — and the floor approximation `⌊√(num·den)⌋ / den`
elsewhere; nonpositive arguments map to zero. -/

def mathSqrt (q : ℚ) : ℚ :=
  if q ≤ 0 then 0 else (Nat.sqrt (q.num.natAbs * q.den) : ℚ) / (q.den : ℚ)

/-- `dummy_embedding` from `scripts/pgvector_ingest_and_query.py` and
`scripts/pgvector_text_distance.py`: character ordinals, repeated or truncated
to `dim` entries, then divided by the norm unless the norm is falsy
(`norm = math.sqrt(...) or 1.0`). -/

def dummy_embedding (text : String) (dim : Nat) : List ℚ :=
  let vals0 := text.toList.map (fun c => (c.toNat : ℚ))
  let vals := if vals0.isEmpty then [(0 : ℚ)] else vals0
  let vec := (List.range dim).map (fun i => vals.getD (i % vals.length) 0)
  let s := mathSqrt ((vec.map (fun x => x * x)).sum)
  let norm := if s = 0 then 1 else s
  vec.map (fun x => x / norm)

/-! ## Schema manager (`ensure_table`) -/

/-- State of the `embedding` column of `LICITACION`: absent, or present with
the `atttypmod` value recorded by PostgreSQL (`dim + 4` for `vector(dim)`;
`none` models a NULL `atttypmod`). -/

inductive EmbCol where
  | absent
  | present (atttypmod : Option Int)
deriving DecidableEq

/-- State of the `LICITACION` table as `ensure_table` observes it. -/

inductive LicTableState where
  | noTable
  | table (col : EmbCol)
deriving DecidableEq

/-- `ensure_table` from `scripts/pgvector_ingest_and_query.py`: create the
table with `vector(dim)` when missing, add the column when missing, and when
the column is present compute `existing_dim = atttypmod - 4` and replace the
column whenever `existing_dim` is truthy and differs from `dim`. -/

def ensure_table (st : LicTableState) (dim : Int) : LicTableState :=
  match st with
  | .noTable => .table (.present (some (dim + 4)))
  | .table .absent => .table (.present (some (dim + 4)))
  | .table (.present m) =>
    match m.map (fun t => t - 4) with
    | some d =>
      if d ≠ 0 ∧ d ≠ dim then .table (.present (some (dim + 4)))
      else .table (.present m)
    | none => .table (.present m)

/-- Width of the embedding column recorded in a table state, when the column
is present with a set `atttypmod`. -/

def colWidth (st : LicTableState) : Option Int :=
  match st with
  | .table (.present (some t)) => some (t - 4)
  | _ => none

/-! ## Institution constants and shared row helpers -/

/-- `UAM_COD` from `scripts/load_filtered_csvs.py`. -/

def UAM_COD : String := "023"

/-- `UAM_NIF` from `scripts/load_filtered_csvs.py`. -/

def UAM_NIF : String := "Q2818013A"

/-- Projection of a coercion result to its value. The totality theorems below
show the `.error` case never occurs; an uncaught exception would abort the
whole run, so no inserted tuple could arise from it. -/

def coVal {α : Type} : Except PyErr (Option α) → Option α
  | .ok v => v
  | .error _ => none

/-- The `(r.get("cod_universidad") or "").strip().strip('"')` normalization
with the `"23" → "023"` rewrite shared by the loaders. -/

def normCodUniv (v : Option String) : String :=
  let c := String.mk (pyStripSet ['"'] (pyStrip (v.getD "")).toList)
  if c = "23" then UAM_COD else c

/-! ## GrantAward loader (`load_ayuda`) -/

/-- Source CSV row of an AYUDA file (the fields the loader reads). -/

structure AyudaRow where
  cod_universidad : Option String
  cod_convocatoria_ayuda : Option String
  cuantia_total : Option String
deriving DecidableEq

/-- Tuple handed to the bulk `INSERT INTO AYUDA`. -/

structure AyudaInsert where
  cod_universidad : String
  cod_convocatoria_ayuda : String
  cuantia_total : Option ℚ
  fecha_concesion : Option PyDate
deriving DecidableEq

/-- Per-run counters reported by `load_ayuda`. -/

structure AyudaCounts where
  kept : Nat
  skipped_empty : Nat
  skipped_missing_fk : Nat
deriving DecidableEq

/-- The call reference of a source row:
`(r.get("cod_convocatoria_ayuda") or "").strip()`. -/

def ayudaCodConv (r : AyudaRow) : String :=
  pyStrip (r.cod_convocatoria_ayuda.getD "")

/-- The tuple built from a kept AYUDA row (`fecha_concesion` is always null:
the source CSV has no such field). -/

def mkAyudaInsert (r : AyudaRow) : AyudaInsert :=
  { cod_universidad := normCodUniv r.cod_universidad
    cod_convocatoria_ayuda := ayudaCodConv r
    cuantia_total := coVal (to_decimal r.cuantia_total)
    fecha_concesion := none }

/-- One iteration of the row loop of `load_ayuda`: skip and count when the
call reference is empty, skip and count when it is not in the snapshot of
valid `CONVOCATORIA_AYUDA` keys, keep otherwise. -/

def ayudaStep (valid_conv : List String) (acc : List AyudaInsert × AyudaCounts)
    (r : AyudaRow) : List AyudaInsert × AyudaCounts :=
  let cod := ayudaCodConv r
  if cod = "" then
    (acc.1, { acc.2 with skipped_empty := acc.2.skipped_empty + 1 })
  else if valid_conv.contains cod = false then
    (acc.1, { acc.2 with skipped_missing_fk := acc.2.skipped_missing_fk + 1 })
  else
    (acc.1 ++ [mkAyudaInsert r], { acc.2 with kept := acc.2.kept + 1 })

/-- `load_ayuda` from `scripts/load_filtered_csvs.py`, as a function of the
snapshot `valid_conv` of `CONVOCATORIA_AYUDA` keys taken before processing
(the `SELECT cod_convocatoria FROM CONVOCATORIA_AYUDA` result) and of the
parsed rows of each discovered file, returning the concatenation of the
per-file bulk inserts together with the total counters. -/

def load_ayuda (valid_conv : List String) (files : List (List AyudaRow)) :
    List AyudaInsert × AyudaCounts :=
  files.foldl (fun acc rows => rows.foldl (ayudaStep valid_conv) acc)
    ([], ⟨0, 0, 0⟩)

/-! ## Tender loader (`load_licitacion`) -/

/-- Source CSV row of a LICITACION file (the fields the loader reads). -/

structure LicRow where
  identificador : Option String
  nif_oc : Option String
  primera_publicacion : Option String
  presupuesto_base_sin_impuestos_licitacion_o_lote : Option String
  importe_adjudicacion_sin_impuestos_licitacion_o_lote : Option String
  resultado_licitacion_o_lote : Option String
  identificador_adjudicatario_de_la_licitacion_o_lote : Option String
  objeto_licitacion_o_lote : Option String
  link_licitacion : Option String
  descripcion_de_la_financiacion_europea : Option String
deriving DecidableEq

/-- The coerced columns of a LICITACION insert tuple (all but `embedding`). -/

structure LicBaseRow where
  identificador : Option Int
  nif_oc : String
  primera_publicacion : Option PyDateTime
  presupuesto_base : Option ℚ
  importe_adjudicacion : Option ℚ
  resultado : String
  adjudicatario : String
  objeto : String
  link : String
  descripcion : String
deriving DecidableEq

/-- Tuple handed to the bulk `INSERT INTO LICITACION`: the coerced columns
plus the pgvector literal of the embedding, or null. -/

structure LicInsertRow where
  base : LicBaseRow
  embedding : Option String
deriving DecidableEq

/-- The stripped object description of a source row. -/

def licObjeto (r : LicRow) : String :=
  pyStrip (r.objeto_licitacion_o_lote.getD "")

/-- The stripped EU-funding note of a source row. -/

def licDescripcion (r : LicRow) : String :=
  pyStrip (r.descripcion_de_la_financiacion_europea.getD "")

/-- The combined embedding text of a tender row: object description and
EU-funding note, newline-joined and trimmed; empty when both parts are
empty. -/

def licCombinedText (r : LicRow) : String :=
  if licObjeto r ≠ "" ∨ licDescripcion r ≠ "" then
    pyStrip (licObjeto r ++ "\n" ++ licDescripcion r)
  else ""

/-- The coerced insert tuple built from a kept LICITACION row. -/

def mkLicBaseRow (r : LicRow) : LicBaseRow :=
  { identificador := coVal (to_int r.identificador)
    nif_oc := pyStrip (r.nif_oc.getD "")
    primera_publicacion := coVal (parse_ts r.primera_publicacion)
    presupuesto_base :=
      coVal (to_decimal r.presupuesto_base_sin_impuestos_licitacion_o_lote)
    importe_adjudicacion :=
      coVal (to_decimal r.importe_adjudicacion_sin_impuestos_licitacion_o_lote)
    resultado := pyStrip (r.resultado_licitacion_o_lote.getD "")
    adjudicatario :=
      pyStrip (r.identificador_adjudicatario_de_la_licitacion_o_lote.getD "")
    objeto := licObjeto r
    link := pyStrip (r.link_licitacion.getD "")
    descripcion := licDescripcion r }

/-- State of the row loop of `load_licitacion`: the run-wide set of raw
identifier values already seen, the kept tuples and their embedding texts in
order, and the per-file counters. -/

structure LicLoopState where
  seen : List (Option String)
  rows : List LicBaseRow
  texts : List String
  kept : Nat
  skipped_dups : Nat
  skipped_nif : Nat
deriving DecidableEq

/-- One iteration of the row loop of `load_licitacion`: rows of another
contracting body are skipped first, then rows whose raw `identificador` was
already seen; a kept row records its raw identifier, tuple and embedding
text. -/

def licStep (st : LicLoopState) (r : LicRow) : LicLoopState :=
  if pyStrip (r.nif_oc.getD "") ≠ UAM_NIF then
    { st with skipped_nif := st.skipped_nif + 1 }
  else if st.seen.contains r.identificador then
    { st with skipped_dups := st.skipped_dups + 1 }
  else
    { st with
      seen := st.seen ++ [r.identificador]
      rows := st.rows ++ [mkLicBaseRow r]
      texts := st.texts ++ [licCombinedText r]
      kept := st.kept + 1 }

/-- A batch embedding call: one vector per input text, in order; `none`
models an exception raised by the embedding library. -/

abbrev EmbedFn := List String → Option (List (List ℚ))

/-- The embedding batch of one file: empty when no model is loaded, when
there are no texts, or when the embedding call raises (caught by the
loader). -/

def licEmbedBatch (embed? : Option EmbedFn) (texts : List String) :
    List (List ℚ) :=
  match embed? with
  | none => []
  | some f =>
    if texts.isEmpty then []
    else
      match f texts with
      | some es => es
      | none => []

/-- The `for i, row in enumerate(rows)` loop attaching embeddings: row `i`
receives the pgvector literal of batch entry `i` when the batch is nonempty
and long enough, and null otherwise. -/

def attachEmbAux (embeddings : List (List ℚ)) (i : Nat) :
    List LicBaseRow → List LicInsertRow
  | [] => []
  | r :: rs =>
    { base := r
      embedding :=
        if embeddings.isEmpty = false ∧ i < embeddings.length then
          some (to_pgvector_literal (embeddings.getD i []))
        else none } :: attachEmbAux embeddings (i + 1) rs

/-- Processing of one LICITACION file: run the row loop from the carried
`seen` set, then (when any row was kept) compute the batch and attach the
embeddings; returns the bulk-insert tuples and the final loop state. -/

def licLoadFile (embed? : Option EmbedFn) (seen : List (Option String))
    (rows : List LicRow) : List LicInsertRow × LicLoopState :=
  let st := rows.foldl licStep
    { seen := seen, rows := [], texts := [], kept := 0,
      skipped_dups := 0, skipped_nif := 0 }
  if st.rows.isEmpty then ([], st)
  else (attachEmbAux (licEmbedBatch embed? st.texts) 0 st.rows, st)

/-- `load_licitacion` from `scripts/load_filtered_csvs.py`, as a function of
the available embedding model and the parsed rows of each discovered file:
the `seen_ids` set is threaded across files and the per-file bulk inserts are
concatenated. -/

def load_licitacion (embed? : Option EmbedFn) (files : List (List LicRow)) :
    List LicInsertRow :=
  (files.foldl
    (fun acc rows =>
      let out := licLoadFile embed? acc.2 rows
      (acc.1 ++ out.1, out.2.seen))
    (([] : List LicInsertRow), ([] : List (Option String)))).1

/-! ## Source discovery (`discover_csv_files`) -/

/-- The entity categories of source files. -/

inductive CsvCategory where
  | gastos
  | ingresos
  | convocatorias
  | ayudas
  | licitaciones
deriving DecidableEq

/-- The if/elif classification chain of `discover_csv_files`, applied to the
lowercased filename: the first matching pattern decides the category, so a
file lands in at most one list. -/

def classify_csv (fname : String) : Option CsvCategory :=
  let f := pyLower fname
  if strContains f "presupuesto-de-gastos" || strContains f "presupuesto_de_gastos" then
    some .gastos
  else if strContains f "presupuesto-de-ingresos" || strContains f "presupuesto_de_ingresos" then
    some .ingresos
  else if strContains f "conv-ayudas" || strContains f "conv_ayudas" then
    some .convocatorias
  else if strContains f "ayudas" && !strContains f "conv" then
    some .ayudas
  else if strContains f "licitaciones" || strContains f "contratos-mayores" then
    some .licitaciones
  else none

/-- `discover_csv_files` from `scripts/load_filtered_csvs.py` as a function of
the directory listing: the `.csv` entries are classified by
`classify_csv` and each category list is sorted for deterministic order. -/

def discover_csv_files (names : List String) (cat : CsvCategory) : List String :=
  (((names.filter (fun n => pyEndsWith n ".csv")).filter
      (fun n => classify_csv n = some cat)).mergeSort (fun a b => decide (a ≤ b)))

/-! ## Similarity query (`query_documents`) -/

/-- A stored `LICITACION` row as the similarity query reads it. -/

structure StoredDoc where
  identificador : Option Int
  nif_oc : Option String
  objeto : Option String
  descripcion : Option String
  emb : List ℚ
deriving DecidableEq

/-- Squared L2 distance between two vectors. `ORDER BY` on the pgvector `<->`
(L2) distance coincides with the order of the squared distance, which stays
inside `ℚ`, so the model ranks by the square. -/

def l2sq (a b : List ℚ) : ℚ :=
  ((a.zip b).map (fun p => (p.1 - p.2) ^ 2)).sum

/-- The error pgvector raises when `<->` is applied to vectors of different
dimensions. -/

inductive QueryErr where
  | dimensionMismatch
deriving DecidableEq

/-- Model of
`SELECT ..., embedding <-> %s AS distance FROM LICITACION ORDER BY distance LIMIT %s`:
evaluating the distance of any stored row whose vector width differs from the
query vector raises the dimension-mismatch error; otherwise the rows are
ordered by ascending distance and truncated to `k`. -/

def run_similarity_query (docs : List StoredDoc) (qvec : List ℚ) (k : Nat) :
    Except QueryErr (List (StoredDoc × ℚ)) :=
  if docs.any (fun d => d.emb.length != qvec.length) then .error .dimensionMismatch
  else
    .ok (((docs.map (fun d => (d, l2sq d.emb qvec))).mergeSort
      (fun a b => decide (a.2 ≤ b.2))).take k)

/-- `query_documents` from `scripts/pgvector_ingest_and_query.py` in dummy
mode: the query text is embedded with the same `dummy_embedding` function used
at ingestion, then the ranked retrieval is issued. -/

def query_documents (docs : List StoredDoc) (q : String) (dim : Nat) (k : Nat) :
    Except QueryErr (List (StoredDoc × ℚ)) :=
  run_similarity_query docs (dummy_embedding q dim) k

/-! ## GrantAward referential filter (claim C3) -/

/-- The keep test of `load_ayuda`: the stripped call reference is non-empty
and belongs to the snapshot of valid `CONVOCATORIA_AYUDA` keys. -/

def ayudaKeeps (valid_conv : List String) (r : AyudaRow) : Bool :=
  !(ayudaCodConv r == "") && valid_conv.contains (ayudaCodConv r)

/-! ## Tender loader dedup and institution filter (claim C2) -/

/-- First-occurrence filter relative to an already-seen key list: the model of
a loop that keeps a row only when its key is new and then records the key. -/

def keepFirstByAux {α β : Type} [DecidableEq β] (key : α → β) (seen : List β) :
    List α → List α
  | [] => []
  | x :: xs =>
    if key x ∈ seen then keepFirstByAux key seen xs
    else x :: keepFirstByAux key (seen ++ [key x]) xs

/-- First-occurrence filter: keeps the first element of each key, drops later
duplicates. -/

def keepFirstBy {α β : Type} [DecidableEq β] (key : α → β) (l : List α) :
    List α :=
  keepFirstByAux key [] l

/-- The institution test of the tender loader: the stripped contracting-body
tax id equals `UAM_NIF`. -/

def licIsUAM (r : LicRow) : Bool :=
  pyStrip (r.nif_oc.getD "") == UAM_NIF

/-- The raw identifier value the dedup set records. -/

def licRawId (r : LicRow) : Option String := r.identificador

/-- The identifier value of the inserted tuple built from a source row. -/

def licParsedId (r : LicRow) : Option Int := coVal (to_int r.identificador)

/-- The identifier column of the emitted bulk insert. -/

def licInsertIds (out : List LicInsertRow) : List (Option Int) :=
  out.map (fun t => t.base.identificador)

/-- Model of the `identificador BIGINT PRIMARY KEY` constraint of the
`LICITACION` DDL: the bulk insert commits exactly when every inserted
identifier is non-null and the identifiers are pairwise distinct; otherwise
PostgreSQL rejects the insert and the run fails before commit. -/

def licRunCommits (out : List LicInsertRow) : Prop :=
  (∀ i ∈ licInsertIds out, i.isSome) ∧ (licInsertIds out).Nodup

/-! ## Decimal parsing (claim C1) -/

/-- Modelled from the specification wording: the numeric value denoted by a
decimal numeral that uses `marker` as its decimal marker — an optional sign,
a nonempty digit run, optionally the marker followed by a nonempty fraction
digit run, and nothing else. This is the specification-side reference
against which `to_decimal` is compared. -/

def decimalNumeralVal? (marker : Char) (s : String) : Option ℚ :=
  let neg := (splitSign s.toList).1
  let cs1 := (splitSign s.toList).2
  let ds := cs1.takeWhile Char.isDigit
  let rest := cs1.dropWhile Char.isDigit
  if ds.isEmpty then none
  else
    match rest with
    | [] => some (sigVal neg ds [])
    | m :: r2 =>
      if m = marker then
        let fs := r2.takeWhile Char.isDigit
        let rest2 := r2.dropWhile Char.isDigit
        if fs.isEmpty = false ∧ rest2.isEmpty = true then some (sigVal neg ds fs)
        else none
      else none

/-! ## Round trip of the pgvector literal (claim C9) -/

/-- The rounding `f"{x:.10f}"` applies: the value rounded to ten decimal
places, ties to even. -/

def round10 (x : ℚ) : ℚ :=
  ((roundHalfEven (x * 10 ^ 10) : ℤ) : ℚ) / 10 ^ 10

/-! ## Totality of the coercion functions (claim C6) -/

/-- The `Decimal` constructor raises only `InvalidOperation`. -/

theorem Decimal_ofString_not_valueError (s : String) :
    Decimal_ofString s ≠ .error .valueError := by
  unfold Decimal_ofString
  cases parseNumeric ((pyStripList s.toList).filter (fun c => c ≠ '_')) <;> simp

/-- On a nonempty ASCII-digit string, `int()` succeeds. -/

theorem int_ofString_ok_of_digits (s : String)
    (h : (!s.toList.isEmpty && s.toList.all Char.isDigit) = true) :
    int_ofString s = .ok (charsVal s.toList : Int) := by
  unfold int_ofString
  simp only [h, if_true]

/-- Below U+0080 the Python digit test coincides with the ASCII one: every
superscript digit lies beyond that range. -/

theorem pyCharIsdigit_ascii (c : Char) (h : c.toNat < 128) :
    pyCharIsdigit c = c.isDigit := by
  unfold pyCharIsdigit
  cases hd : c.isDigit
  · simp only [Bool.false_or]
    cases hb : superscriptDigits.contains c
    · rfl
    · have hmem : c ∈ superscriptDigits := by simpa using hb
      simp only [superscriptDigits, List.mem_cons, List.not_mem_nil,
        or_false] at hmem
      rcases hmem with rfl | rfl | rfl | rfl | rfl | rfl | rfl | rfl | rfl | rfl <;>
        exact absurd h (by decide)
  · simp

/-- Characters of the stripped list are characters of the original list. -/

theorem mem_pyStripList (c : Char) (cs : List Char) (h : c ∈ pyStripList cs) :
    c ∈ cs := by
  unfold pyStripList at h
  rw [List.mem_reverse] at h
  have h1 := (List.dropWhile_sublist _).subset h
  rw [List.mem_reverse] at h1
  exact (List.dropWhile_sublist _).subset h1

/-- `strptime` with the `%Y%m%d` format raises only `ValueError`. -/

theorem strptime_Ymd_not_invalid (s : String) :
    strptime_Ymd s ≠ .error .invalidOperation := by
  unfold strptime_Ymd
  split <;> try simp
  split <;> simp

/-- `strptime` with `"%Y-%m-%d %H:%M:%S"` raises only `ValueError`. -/

theorem strptime_ts_space_not_invalid (s : String) :
    strptime_ts_space s ≠ .error .invalidOperation := by
  unfold strptime_ts_space
  split <;> try simp
  split <;> simp

/-- `strptime` with `"%Y-%m-%dT%H:%M:%S"` raises only `ValueError`. -/

theorem strptime_ts_T_not_invalid (s : String) :
    strptime_ts_T s ≠ .error .invalidOperation := by
  unfold strptime_ts_T
  split <;> try simp
  split <;> simp

/-- `strptime` with `"%Y-%m-%d"` raises only `ValueError`. -/

theorem strptime_date_only_not_invalid (s : String) :
    strptime_date_only s ≠ .error .invalidOperation := by
  unfold strptime_date_only
  split <;> try simp
  split <;> simp

/-- The format-trying loop of `parse_ts` never lets an exception escape when
every format raises only `ValueError`. -/

theorem tryTsFormats_ok (fmts : List (String → Except PyErr PyDateTime))
    (s : String) (h : ∀ f ∈ fmts, f s ≠ .error .invalidOperation) :
    ∃ v, tryTsFormats fmts s = .ok v := by
  induction fmts with
  | nil => exact ⟨none, rfl⟩
  | cons f rest ih =>
    have hf : f s ≠ .error .invalidOperation := h f (List.mem_cons_self f rest)
    have hrest : ∀ g ∈ rest, g s ≠ .error .invalidOperation :=
      fun g hg => h g (List.mem_cons_of_mem f hg)
    unfold tryTsFormats
    cases hfs : f s with
    | ok d => exact ⟨some d, rfl⟩
    | error e =>
      cases e with
      | invalidOperation => exact absurd hfs hf
      | valueError => exact ih hrest

/-- `to_decimal` is total: every input yields a value or null, never an
exception. -/

theorem to_decimal_total (s? : Option String) : ∃ v, to_decimal s? = .ok v := by
  unfold to_decimal
  cases s? with
  | none => exact ⟨none, rfl⟩
  | some s0 =>
    simp only []
    split
    · exact ⟨none, rfl⟩
    · cases hD : Decimal_ofString (String.mk
        ((String.mk ((pyStrip s0).toList.filter (fun c => c ≠ '.'))).toList.map
          (fun c => if c = ',' then '.' else c))) with
      | ok q => exact ⟨some q, rfl⟩
      | error e =>
        cases e with
        | invalidOperation => exact ⟨none, rfl⟩
        | valueError => exact absurd hD (Decimal_ofString_not_valueError _)

/-- `to_int` is total on ASCII inputs: under ASCII characters the `isdigit`
guard coincides with what `int()` accepts, so the unprotected direct call
cannot raise. -/

theorem to_int_total_ascii (s? : Option String)
    (h : ∀ c ∈ (s?.getD "").toList, c.toNat < 128) :
    ∃ v, to_int s? = .ok v := by
  unfold to_int
  cases s? with
  | none => exact ⟨none, rfl⟩
  | some s0 =>
    simp only []
    split
    · cases hI : int_ofString (String.mk ((pyStrip s0).toList.filter pyCharIsdigit)) with
      | ok n => exact ⟨some n, rfl⟩
      | error e => exact ⟨none, rfl⟩
    · rename_i hcond
      have hdig : pyIsdigit (pyStrip s0) = true := by
        cases hb : pyIsdigit (pyStrip s0)
        · exact absurd (Or.inr hb) hcond
        · rfl
      have hascii : ∀ c ∈ (pyStrip s0).toList, c.toNat < 128 := by
        intro c hc
        exact h c (by simpa using mem_pyStripList c s0.toList hc)
      unfold pyIsdigit at hdig
      rw [Bool.and_eq_true] at hdig
      obtain ⟨hne, hall⟩ := hdig
      have hall' : (pyStrip s0).toList.all Char.isDigit = true := by
        rw [List.all_eq_true] at hall ⊢
        intro c hc
        rw [← pyCharIsdigit_ascii c (hascii c hc)]
        exact hall c hc
      rw [int_ofString_ok_of_digits _ (by rw [Bool.and_eq_true]; exact ⟨hne, hall'⟩)]
      exact ⟨some (charsVal (pyStrip s0).toList : Int), rfl⟩

/-- `parse_date_yyyymmdd` is total. -/

theorem parse_date_yyyymmdd_total (s? : Option String) :
    ∃ v, parse_date_yyyymmdd s? = .ok v := by
  unfold parse_date_yyyymmdd
  cases s? with
  | none => exact ⟨none, rfl⟩
  | some s0 =>
    simp only []
    split
    · exact ⟨none, rfl⟩
    · split
      · exact ⟨none, rfl⟩
      · cases hS : strptime_Ymd (pyStrip s0) with
        | ok d => exact ⟨some d, rfl⟩
        | error e =>
          cases e with
          | invalidOperation => exact absurd hS (strptime_Ymd_not_invalid _)
          | valueError => exact ⟨none, rfl⟩

/-- `parse_ts` is total. -/

theorem parse_ts_total (s? : Option String) : ∃ v, parse_ts s? = .ok v := by
  unfold parse_ts
  cases s? with
  | none => exact ⟨none, rfl⟩
  | some s0 =>
    simp only []
    split
    · exact ⟨none, rfl⟩
    · split
      · exact ⟨none, rfl⟩
      · refine tryTsFormats_ok _ _ ?_
        intro f hf
        simp only [List.mem_cons, List.mem_singleton] at hf
        rcases hf with rfl | rfl | rfl | h
        · exact strptime_ts_space_not_invalid _
        · exact strptime_ts_T_not_invalid _
        · exact strptime_date_only_not_invalid _
        · cases h

/-- Counterexample to C6 as stated: the superscript two passes the `isdigit`
guard of `to_int`, so the string is handed straight to `int()` outside any
`try` block, and `int()` — which reads only decimal digits — rejects it: the
`ValueError` escapes `to_int`. -/

theorem to_int_unicode_digit_counterexample :
    pyIsdigit "²" = true ∧ to_int (some "²") = .error .valueError := by
  constructor
  · decide
  · rfl

/-- C6 (corrected): `to_decimal`, `parse_date_yyyymmdd` and `parse_ts` are
total — for every input, including null, empty and malformed strings, each
returns a value or null and never raises — and `to_int` is total on every
input of ASCII characters; `to_int` is not total outright: a non-decimal
digit character such as `"²"` passes its `isdigit` guard and is handed to
`int()` outside any `try` block, where it raises an uncaught `ValueError`. -/

theorem coercion_functions_total (s? : Option String) :
    (∃ v, to_decimal s? = .ok v) ∧
    (∃ v, parse_date_yyyymmdd s? = .ok v) ∧
    (∃ v, parse_ts s? = .ok v) ∧
    ((∀ c ∈ (s?.getD "").toList, c.toNat < 128) → ∃ v, to_int s? = .ok v) :=
  ⟨to_decimal_total s?, parse_date_yyyymmdd_total s?, parse_ts_total s?,
    fun h => to_int_total_ascii s? h⟩

/-- Witness: at the ASCII input `"12"` the hypothesis of the `to_int`
conjunct is discharged and all four coercions return a value. -/

theorem coercion_functions_total_witness :
    (∀ c ∈ ((some "12" : Option String).getD "").toList, c.toNat < 128) ∧
    ((∃ v, to_decimal (some "12") = .ok v) ∧
     (∃ v, parse_date_yyyymmdd (some "12") = .ok v) ∧
     (∃ v, parse_ts (some "12") = .ok v) ∧
     ∃ v, to_int (some "12") = .ok v) := by
  refine ⟨by decide, ?_⟩
  obtain ⟨h1, h2, h3, h4⟩ := coercion_functions_total (some "12")
  exact ⟨h1, h2, h3, h4 (by decide)⟩

/-! ## Schema reconciliation (claim C7) -/

/-- C7: `ensure_table` establishes that the embedding column exists at exactly
the requested width: a missing table is created with the column at that
width, a missing column is added at that width, and a column present at a
vector width (`atttypmod = w + 4` with `w ≥ 1`) different from the requested
one is dropped and re-added at the requested width. -/

theorem ensure_table_establishes_width (st : LicTableState) (dim : Int)
    (hdim : 1 ≤ dim)
    (hvalid : st = .noTable ∨ st = .table .absent ∨
      ∃ w : Int, 1 ≤ w ∧ st = .table (.present (some (w + 4)))) :
    colWidth (ensure_table st dim) = some dim := by
  rcases hvalid with rfl | rfl | ⟨w, hw, rfl⟩
  · simp [ensure_table, colWidth]
  · simp [ensure_table, colWidth]
  · by_cases h : w = dim
    · subst h
      simp [ensure_table, colWidth]
    · have hw0 : w ≠ 0 := by omega
      simp [ensure_table, colWidth, hw0, h]

/-- Witness for C7: reconciling a column created at width 128
(`atttypmod = 132`) against an observed width of 384 yields a width-384
column. -/

theorem ensure_table_establishes_width_witness :
    colWidth (ensure_table (.table (.present (some 132))) 384) = some 384 :=
  ensure_table_establishes_width _ 384 (by decide)
    (Or.inr (Or.inr ⟨128, by decide, by decide⟩))

/-! ## Source-file classification (claim C5) -/

/-- Counterexample to C5 as stated: the filename `conv-de-ayudas.csv` contains
both `ayudas` and `conv` (case-insensitively) yet is classified into no
category at all — in particular not as a grant-call file — because the
grant-call branch looks for the joined substrings `conv-ayudas`/`conv_ayudas`
and the grant-award branch excludes any filename containing `conv`. -/

theorem classify_csv_both_substrings_counterexample :
    strContains (pyLower "conv-de-ayudas.csv") "ayudas" = true ∧
    strContains (pyLower "conv-de-ayudas.csv") "conv" = true ∧
    classify_csv "conv-de-ayudas.csv" = none := by decide

/-- C5 (amended): classification assigns at most one category (the
per-category manifests are pairwise disjoint), a filename containing the
substring `conv` — in particular one containing both `ayudas` and `conv` —
is never classified as a grant-award file, and such a filename is classified
as a grant-call file exactly when it contains one of the joined substrings
`conv-ayudas`/`conv_ayudas` and matches no higher-priority budget pattern. -/

theorem classify_csv_conv_priority (name : String)
    (hconv : strContains (pyLower name) "conv" = true) :
    classify_csv name ≠ some .ayudas ∧
    (classify_csv name = some .convocatorias ↔
      ((strContains (pyLower name) "conv-ayudas" ||
        strContains (pyLower name) "conv_ayudas") = true ∧
       (strContains (pyLower name) "presupuesto-de-gastos" ||
        strContains (pyLower name) "presupuesto_de_gastos") = false ∧
       (strContains (pyLower name) "presupuesto-de-ingresos" ||
        strContains (pyLower name) "presupuesto_de_ingresos") = false)) ∧
    (∀ (names : List String) (c₁ c₂ : CsvCategory),
      name ∈ discover_csv_files names c₁ → name ∈ discover_csv_files names c₂ →
      c₁ = c₂) := by
  refine ⟨?_, ?_, ?_⟩
  · unfold classify_csv
    simp only [hconv, Bool.not_true, Bool.and_false]
    split
    · simp
    · split
      · simp
      · split
        · simp
        · simp
  · constructor
    · intro h
      simp only [classify_csv] at h
      split at h
      · simp at h
      · split at h
        · simp at h
        · split at h
          · rename_i h1 h2 h3
            exact ⟨h3, by simpa using h1, by simpa using h2⟩
          · split at h
            · simp at h
            · split at h <;> simp at h
    · rintro ⟨h3, h1, h2⟩
      simp only [classify_csv]
      rw [if_neg (by simp [h1]), if_neg (by simp [h2]), if_pos h3]
  · intro names c₁ c₂ h₁ h₂
    have m₁ : classify_csv name = some c₁ := by
      have := (List.mem_mergeSort).mp h₁
      simp only [List.mem_filter, decide_eq_true_eq] at this
      exact this.2
    have m₂ : classify_csv name = some c₂ := by
      have := (List.mem_mergeSort).mp h₂
      simp only [List.mem_filter, decide_eq_true_eq] at this
      exact this.2
    have := m₁.symm.trans m₂
    exact Option.some_injective _ this

/-- Witness for C5 (amended): the filename `conv-ayudas-2023.csv` contains
`conv`, is not classified as a grant-award file, and is classified as a
grant-call file by the joined-substring branch. -/

theorem classify_csv_conv_priority_witness :
    classify_csv "conv-ayudas-2023.csv" ≠ some .ayudas ∧
    (classify_csv "conv-ayudas-2023.csv" = some .convocatorias ↔
      ((strContains (pyLower "conv-ayudas-2023.csv") "conv-ayudas" ||
        strContains (pyLower "conv-ayudas-2023.csv") "conv_ayudas") = true ∧
       (strContains (pyLower "conv-ayudas-2023.csv") "presupuesto-de-gastos" ||
        strContains (pyLower "conv-ayudas-2023.csv") "presupuesto_de_gastos") = false ∧
       (strContains (pyLower "conv-ayudas-2023.csv") "presupuesto-de-ingresos" ||
        strContains (pyLower "conv-ayudas-2023.csv") "presupuesto_de_ingresos") = false)) ∧
    (∀ (names : List String) (c₁ c₂ : CsvCategory),
      "conv-ayudas-2023.csv" ∈ discover_csv_files names c₁ →
      "conv-ayudas-2023.csv" ∈ discover_csv_files names c₂ →
      c₁ = c₂) :=
  classify_csv_conv_priority "conv-ayudas-2023.csv" (by decide)

/-! ## Dummy embedding of empty text (claim C10) -/

/-- C10: for every dimension `dim ≥ 1`, `dummy_embedding` applied to the empty
string returns the all-zero vector of length `dim`: the ordinal list falls
back to `[0]`, the norm is zero, and the `or 1.0` guard divides by one, so in
dummy mode an empty text produces a stored zero vector rather than a
unit-norm vector or a null. -/

theorem dummy_embedding_empty_is_zero_vector (dim : Nat) (_hdim : 1 ≤ dim) :
    dummy_embedding "" dim = List.replicate dim (0 : ℚ) := by
  have htoList : ("" : String).toList = [] := rfl
  have hvec : (List.range dim).map (fun i => ([(0 : ℚ)]).getD (i % 1) 0) =
      List.replicate dim (0 : ℚ) := by
    apply List.eq_replicate_iff.mpr
    refine ⟨by simp, ?_⟩
    intro b hb
    simp only [List.mem_map] at hb
    obtain ⟨i, _, hi⟩ := hb
    simpa [Nat.mod_one] using hi.symm
  unfold dummy_embedding
  simp only [htoList, List.map_nil, List.isEmpty_nil, if_true,
    List.length_singleton, hvec, List.map_replicate]
  norm_num [mathSqrt, List.sum_replicate]

/-- Witness for C10 at dimension 4. -/

theorem dummy_embedding_empty_is_zero_vector_witness :
    1 ≤ 4 ∧ dummy_embedding "" 4 = List.replicate 4 (0 : ℚ) :=
  ⟨by decide, dummy_embedding_empty_is_zero_vector 4 (by decide)⟩

/-- One step of the AYUDA row loop: the accumulated output is the filtered,
mapped prefix plus per-reason counts. -/

theorem ayuda_foldl_characterization (valid_conv : List String)
    (rows : List AyudaRow) (acc : List AyudaInsert × AyudaCounts) :
    rows.foldl (ayudaStep valid_conv) acc =
      (acc.1 ++ (rows.filter (ayudaKeeps valid_conv)).map mkAyudaInsert,
       { kept := acc.2.kept + (rows.filter (ayudaKeeps valid_conv)).length,
         skipped_empty := acc.2.skipped_empty +
           rows.countP (fun r => ayudaCodConv r == ""),
         skipped_missing_fk := acc.2.skipped_missing_fk +
           rows.countP (fun r =>
             !(ayudaCodConv r == "") && !valid_conv.contains (ayudaCodConv r)) }) := by
  induction rows generalizing acc with
  | nil => simp
  | cons r rest ih =>
    obtain ⟨ins, k, se, sm⟩ := acc
    rw [List.foldl_cons, ih]
    by_cases h : ayudaCodConv r = ""
    · simp [ayudaStep, ayudaKeeps, h, List.filter_cons, List.countP_cons,
        Prod.ext_iff, AyudaCounts.mk.injEq]
      omega
    · cases h2 : valid_conv.contains (ayudaCodConv r) with
      | false =>
        have h2' : ayudaCodConv r ∉ valid_conv := by simpa using h2
        simp [ayudaStep, ayudaKeeps, h, h2, h2', List.filter_cons,
          List.countP_cons, Prod.ext_iff, AyudaCounts.mk.injEq]
        omega
      | true =>
        have h2' : ayudaCodConv r ∈ valid_conv := by simpa using h2
        simp [ayudaStep, ayudaKeeps, h, h2, h2', List.filter_cons,
          List.countP_cons, Prod.ext_iff, AyudaCounts.mk.injEq]
        omega

/-- C3: a source row is inserted by the GrantAward loader if and only if its
stripped call reference is non-empty and present in the snapshot of
`CONVOCATORIA_AYUDA` keys taken before processing; excluded rows are counted,
split into an empty-reference count and a missing-reference count; and every
committed GrantAward tuple therefore carries a call code present in the
snapshot, i.e. matching an existing GrantCall row. -/

theorem load_ayuda_referential_filter (valid_conv : List String)
    (files : List (List AyudaRow)) :
    ((load_ayuda valid_conv files).1 =
      (files.flatten.filter (ayudaKeeps valid_conv)).map mkAyudaInsert) ∧
    (∀ r, ayudaKeeps valid_conv r = true ↔
      (ayudaCodConv r ≠ "" ∧ ayudaCodConv r ∈ valid_conv)) ∧
    ((load_ayuda valid_conv files).2.skipped_empty =
      files.flatten.countP (fun r => ayudaCodConv r == "")) ∧
    ((load_ayuda valid_conv files).2.skipped_missing_fk =
      files.flatten.countP (fun r =>
        !(ayudaCodConv r == "") && !valid_conv.contains (ayudaCodConv r))) ∧
    (∀ t ∈ (load_ayuda valid_conv files).1,
      t.cod_convocatoria_ayuda ∈ valid_conv) := by
  have hkeep : ∀ r, ayudaKeeps valid_conv r = true ↔
      (ayudaCodConv r ≠ "" ∧ ayudaCodConv r ∈ valid_conv) := by
    intro r
    unfold ayudaKeeps
    simp
  have hload : load_ayuda valid_conv files =
      files.flatten.foldl (ayudaStep valid_conv) ([], ⟨0, 0, 0⟩) := by
    unfold load_ayuda
    rw [List.foldl_flatten]
  have hchar := ayuda_foldl_characterization valid_conv files.flatten
    ([], ⟨0, 0, 0⟩)
  rw [hload, hchar]
  refine ⟨by simp, hkeep, by simp, by simp, ?_⟩
  intro t ht
  simp only [List.nil_append, List.mem_map, List.mem_filter] at ht
  obtain ⟨r, ⟨_, hk⟩, rfl⟩ := ht
  have := (hkeep r).mp hk
  simpa [mkAyudaInsert] using this.2

/-- Attaching embeddings leaves the coerced columns unchanged. -/

theorem attachEmbAux_map_base (es : List (List ℚ)) (i : Nat)
    (bs : List LicBaseRow) :
    (attachEmbAux es i bs).map (fun t => t.base) = bs := by
  induction bs generalizing i with
  | nil => rfl
  | cons b rest ih => simp [attachEmbAux, ih]

/-- The row loop of the tender loader keeps exactly the first occurrence of
each raw identifier among the rows of the target institution, appending the
kept tuples, their embedding texts and their raw identifiers in order. -/

theorem lic_foldl_characterization (rows : List LicRow) (st : LicLoopState) :
    ((rows.foldl licStep st).seen =
      st.seen ++ (keepFirstByAux licRawId st.seen
        (rows.filter licIsUAM)).map licRawId) ∧
    ((rows.foldl licStep st).rows =
      st.rows ++ (keepFirstByAux licRawId st.seen
        (rows.filter licIsUAM)).map mkLicBaseRow) ∧
    ((rows.foldl licStep st).texts =
      st.texts ++ (keepFirstByAux licRawId st.seen
        (rows.filter licIsUAM)).map licCombinedText) := by
  induction rows generalizing st with
  | nil => simp [keepFirstByAux]
  | cons r rest ih =>
    rw [List.foldl_cons]
    by_cases hu : licIsUAM r = true
    · have hu' : ¬ (pyStrip (r.nif_oc.getD "") ≠ UAM_NIF) := by
        simpa [licIsUAM] using hu
      by_cases hs : licRawId r ∈ st.seen
      · have hstep : licStep st r = { st with skipped_dups := st.skipped_dups + 1 } := by
          have hc : st.seen.contains r.identificador = true := by
            simpa [licRawId] using hs
          simp [licStep, hu', hc, show r.identificador ∈ st.seen from hs]
        rw [hstep]
        obtain ⟨h1, h2, h3⟩ := ih { st with skipped_dups := st.skipped_dups + 1 }
        refine ⟨?_, ?_, ?_⟩ <;>
          simp_all [List.filter_cons, hu, keepFirstByAux, hs]
      · have hstep : licStep st r =
            { st with
              seen := st.seen ++ [r.identificador]
              rows := st.rows ++ [mkLicBaseRow r]
              texts := st.texts ++ [licCombinedText r]
              kept := st.kept + 1 } := by
          have hc : st.seen.contains r.identificador = false := by
            simpa [licRawId] using hs
          simp [licStep, hu', hc, show r.identificador ∉ st.seen from hs]
        rw [hstep]
        obtain ⟨h1, h2, h3⟩ := ih
          { st with
            seen := st.seen ++ [r.identificador]
            rows := st.rows ++ [mkLicBaseRow r]
            texts := st.texts ++ [licCombinedText r]
            kept := st.kept + 1 }
        refine ⟨?_, ?_, ?_⟩ <;>
          simp_all [List.filter_cons, hu, keepFirstByAux, hs, licRawId]
    · have hu' : pyStrip (r.nif_oc.getD "") ≠ UAM_NIF := by
        simpa [licIsUAM] using hu
      have hstep : licStep st r = { st with skipped_nif := st.skipped_nif + 1 } := by
        simp [licStep, hu']
      rw [hstep]
      obtain ⟨h1, h2, h3⟩ := ih { st with skipped_nif := st.skipped_nif + 1 }
      refine ⟨?_, ?_, ?_⟩ <;>
        simp_all [List.filter_cons, hu]

/-- Splitting the first-occurrence filter over an append: the second part is
filtered against the keys seen after the first. -/

theorem keepFirstByAux_append {α β : Type} [DecidableEq β] (key : α → β)
    (l₁ l₂ : List α) (seen : List β) :
    keepFirstByAux key seen (l₁ ++ l₂) =
      keepFirstByAux key seen l₁ ++
        keepFirstByAux key (seen ++ (keepFirstByAux key seen l₁).map key) l₂ := by
  induction l₁ generalizing seen with
  | nil => simp [keepFirstByAux]
  | cons x xs ih =>
    by_cases h : key x ∈ seen
    · simp [keepFirstByAux, h, ih]
    · have hl : keepFirstByAux key seen ((x :: xs) ++ l₂) =
          x :: keepFirstByAux key (seen ++ [key x]) (xs ++ l₂) := by
        simp [keepFirstByAux, h]
      have hr : keepFirstByAux key seen (x :: xs) =
          x :: keepFirstByAux key (seen ++ [key x]) xs := by
        simp [keepFirstByAux, h]
      rw [hl, ih, hr]
      simp [List.append_assoc]

/-- Every element of the input has its key either already seen or among the
keys of the kept list. -/

theorem keepFirstByAux_mem_key {α β : Type} [DecidableEq β] (key : α → β)
    (l : List α) (seen : List β) :
    ∀ x ∈ l, key x ∈ seen ∨ key x ∈ (keepFirstByAux key seen l).map key := by
  induction l generalizing seen with
  | nil => intro x hx; cases hx
  | cons y ys ih =>
    intro x hx
    by_cases h : key y ∈ seen
    · rcases List.mem_cons.mp hx with rfl | hx'
      · exact Or.inl h
      · simpa [keepFirstByAux, h] using ih seen x hx'
    · rcases List.mem_cons.mp hx with rfl | hx'
      · exact Or.inr (by simp [keepFirstByAux, h])
      · rcases ih (seen ++ [key y]) x hx' with hmem | hmem
        · rcases List.mem_append.mp hmem with hmem' | hmem'
          · exact Or.inl hmem'
          · simp only [List.mem_singleton] at hmem'
            exact Or.inr (by simp [keepFirstByAux, h, hmem'])
        · exact Or.inr (by simp [keepFirstByAux, h]; right; simpa using hmem)

/-- When the composed keys of the kept list are pairwise distinct (and clear
of the already-seen keys), first-occurrence filtering by the raw key and by
the composed key agree. -/

theorem keepFirstByAux_key_congr {α β γ : Type} [DecidableEq β] [DecidableEq γ]
    (key : α → β) (f : β → γ) (l : List α) (seen : List β)
    (hnd : ((keepFirstByAux key seen l).map (fun a => f (key a))).Nodup)
    (hdisj : ∀ y ∈ keepFirstByAux key seen l, f (key y) ∉ seen.map f) :
    keepFirstByAux (fun a => f (key a)) (seen.map f) l =
      keepFirstByAux key seen l := by
  induction l generalizing seen with
  | nil => rfl
  | cons x xs ih =>
    by_cases h : key x ∈ seen
    · have hf : f (key x) ∈ seen.map f := List.mem_map_of_mem _ h
      have hrec : keepFirstByAux key seen (x :: xs) = keepFirstByAux key seen xs := by
        simp [keepFirstByAux, h]
      rw [hrec] at hnd hdisj
      simpa [keepFirstByAux, h, hf] using ih seen hnd hdisj
    · have hkeep : keepFirstByAux key seen (x :: xs) =
          x :: keepFirstByAux key (seen ++ [key x]) xs := by
        simp [keepFirstByAux, h]
      rw [hkeep] at hnd hdisj
      have hx_notin : f (key x) ∉ seen.map f := hdisj x (List.mem_cons_self x _)
      simp only [List.map_cons, List.nodup_cons] at hnd
      have hmapseen : (seen ++ [key x]).map f = seen.map f ++ [f (key x)] := by simp
      have htail := ih (seen ++ [key x]) hnd.2 ?_
      · rw [hkeep]
        simp only [keepFirstByAux, if_neg hx_notin]
        rw [← hmapseen, htail]
      · intro y hy
        rw [hmapseen]
        intro hmem
        rcases List.mem_append.mp hmem with hmem' | hmem'
        · exact hdisj y (List.mem_cons_of_mem x hy) hmem'
        · simp only [List.mem_singleton] at hmem'
          exact hnd.1 (by rw [← hmem']; exact List.mem_map_of_mem _ hy)

/-- The kept list is a subset of the input. -/

theorem keepFirstByAux_subset {α β : Type} [DecidableEq β] (key : α → β)
    (l : List α) (seen : List β) :
    ∀ x ∈ keepFirstByAux key seen l, x ∈ l := by
  induction l generalizing seen with
  | nil => intro x hx; cases hx
  | cons y ys ih =>
    intro x hx
    by_cases h : key y ∈ seen
    · simp only [keepFirstByAux, if_pos h] at hx
      exact List.mem_cons_of_mem y (ih seen x hx)
    · simp only [keepFirstByAux, if_neg h, List.mem_cons] at hx
      rcases hx with rfl | hx'
      · exact List.mem_cons_self x ys
      · exact List.mem_cons_of_mem y (ih (seen ++ [key y]) x hx')

/-- Characterization of one file of the tender loader: the insert tuples are
the first occurrences (by raw identifier, relative to the carried `seen`
set) of the institution-matching rows, and `seen` is extended with their raw
identifiers. -/

theorem licLoadFile_characterization (embed? : Option EmbedFn)
    (seen : List (Option String)) (rows : List LicRow) :
    ((licLoadFile embed? seen rows).1.map (fun t => t.base) =
      (keepFirstByAux licRawId seen (rows.filter licIsUAM)).map mkLicBaseRow) ∧
    ((licLoadFile embed? seen rows).2.seen =
      seen ++ (keepFirstByAux licRawId seen (rows.filter licIsUAM)).map licRawId) := by
  obtain ⟨h1, h2, h3⟩ := lic_foldl_characterization rows
    { seen := seen, rows := [], texts := [], kept := 0,
      skipped_dups := 0, skipped_nif := 0 }
  simp only [List.nil_append] at h1 h2 h3
  unfold licLoadFile
  simp only []
  split
  case isTrue hempty =>
    have hns : (List.foldl licStep
        { seen := seen, rows := [], texts := [], kept := 0,
          skipped_dups := 0, skipped_nif := 0 } rows).rows = [] :=
      List.isEmpty_iff.mp hempty
    refine ⟨?_, h1⟩
    rw [hns] at h2
    simp [← h2]
  case isFalse hempty =>
    refine ⟨?_, h1⟩
    rw [attachEmbAux_map_base]
    exact h2

/-- Characterization of the whole tender-loader fold across files. -/

theorem load_licitacion_foldl_characterization (embed? : Option EmbedFn)
    (files : List (List LicRow)) (acc : List LicInsertRow × List (Option String)) :
    (((files.foldl
        (fun acc rows =>
          let out := licLoadFile embed? acc.2 rows
          (acc.1 ++ out.1, out.2.seen)) acc).1).map (fun t => t.base) =
      acc.1.map (fun t => t.base) ++
        (keepFirstByAux licRawId acc.2
          (files.flatten.filter licIsUAM)).map mkLicBaseRow) ∧
    ((files.foldl
        (fun acc rows =>
          let out := licLoadFile embed? acc.2 rows
          (acc.1 ++ out.1, out.2.seen)) acc).2 =
      acc.2 ++ (keepFirstByAux licRawId acc.2
        (files.flatten.filter licIsUAM)).map licRawId) := by
  induction files generalizing acc with
  | nil => simp [keepFirstByAux]
  | cons rows fs ih =>
    obtain ⟨hf1, hf2⟩ := licLoadFile_characterization embed? acc.2 rows
    rw [List.foldl_cons]
    obtain ⟨hi1, hi2⟩ := ih
      (acc.1 ++ (licLoadFile embed? acc.2 rows).1,
        (licLoadFile embed? acc.2 rows).2.seen)
    constructor
    · rw [hi1]
      simp only [List.map_append, hf1, hf2, List.flatten_cons,
        List.filter_append, keepFirstByAux_append]
      simp [List.append_assoc]
    · rw [hi2]
      simp only [hf2, List.flatten_cons, List.filter_append,
        keepFirstByAux_append]
      simp [List.append_assoc]

/-- The whole-run tender-loader output, by coerced columns: the first
occurrence (by raw identifier) of each institution-matching source row. -/

theorem load_licitacion_bases (embed? : Option EmbedFn)
    (files : List (List LicRow)) :
    (load_licitacion embed? files).map (fun t => t.base) =
      (keepFirstBy licRawId (files.flatten.filter licIsUAM)).map mkLicBaseRow := by
  unfold load_licitacion keepFirstBy
  exact (load_licitacion_foldl_characterization embed? files ([], [])).1

/-- C2: after every successful (committed) run of the tender loader, every
inserted tuple carries the target institution tax id (rows of other
contracting bodies are never inserted), the inserted identifiers are non-null
and pairwise distinct, the inserted tuples are exactly the first occurrence
of each identifier across all discovered files (later duplicates dropped),
and the identifier of every institution-matching source row — kept or
dropped as a duplicate — appears among the inserted identifiers. -/

theorem load_licitacion_unique_identifiers (embed? : Option EmbedFn)
    (files : List (List LicRow))
    (hcommit : licRunCommits (load_licitacion embed? files)) :
    (∀ t ∈ load_licitacion embed? files, t.base.nif_oc = UAM_NIF) ∧
    (∀ i ∈ licInsertIds (load_licitacion embed? files), i.isSome) ∧
    (licInsertIds (load_licitacion embed? files)).Nodup ∧
    ((load_licitacion embed? files).map (fun t => t.base) =
      (keepFirstBy licParsedId (files.flatten.filter licIsUAM)).map mkLicBaseRow) ∧
    (∀ r ∈ files.flatten.filter licIsUAM,
      licParsedId r ∈ licInsertIds (load_licitacion embed? files)) := by
  have hbases := load_licitacion_bases embed? files
  have hids : licInsertIds (load_licitacion embed? files) =
      (keepFirstBy licRawId (files.flatten.filter licIsUAM)).map licParsedId := by
    unfold licInsertIds
    have : (load_licitacion embed? files).map (fun t => t.base.identificador) =
        ((load_licitacion embed? files).map (fun t => t.base)).map
          (fun b => b.identificador) := by
      rw [List.map_map]
      rfl
    rw [this, hbases, List.map_map]
    rfl
  have hnd : ((keepFirstBy licRawId (files.flatten.filter licIsUAM)).map
      licParsedId).Nodup := by
    rw [← hids]; exact hcommit.2
  have hcongr : keepFirstBy licParsedId (files.flatten.filter licIsUAM) =
      keepFirstBy licRawId (files.flatten.filter licIsUAM) := by
    unfold keepFirstBy
    have := keepFirstByAux_key_congr licRawId
      (fun s? => coVal (to_int s?)) (files.flatten.filter licIsUAM) []
      (by simpa using hnd) (by simp)
    simpa using this
  refine ⟨?_, hcommit.1, hcommit.2, by rw [hcongr]; exact hbases, ?_⟩
  · intro t ht
    have hb : t.base ∈ (load_licitacion embed? files).map (fun t => t.base) :=
      List.mem_map_of_mem _ ht
    rw [hbases] at hb
    obtain ⟨r, hr, hrt⟩ := List.mem_map.mp hb
    have hrsrc : r ∈ files.flatten.filter licIsUAM :=
      keepFirstByAux_subset licRawId _ [] r hr
    have huam : licIsUAM r = true := (List.mem_filter.mp hrsrc).2
    have : pyStrip (r.nif_oc.getD "") = UAM_NIF := by
      simpa [licIsUAM] using huam
    rw [← hrt]
    simpa [mkLicBaseRow] using this
  · intro r hr
    rcases keepFirstByAux_mem_key licRawId (files.flatten.filter licIsUAM) []
        r hr with hmem | hmem
    · cases hmem
    · obtain ⟨y, hy, hky⟩ := List.mem_map.mp hmem
      have : licParsedId y = licParsedId r := by
        unfold licParsedId
        unfold licRawId at hky
        rw [hky]
      rw [hids]
      rw [← this]
      exact List.mem_map_of_mem _ hy

/-- Witness for C2: a two-file run with three source rows — a duplicate
identifier and a row of another contracting body — commits, keeps the first
occurrence only, and inserts no foreign row. -/

theorem load_licitacion_unique_identifiers_witness :
    licRunCommits (load_licitacion none
      [[⟨some "1", some "Q2818013A", none, none, none, none, none, none, none, none⟩,
        ⟨some "1", some "Q2818013A", none, none, none, none, none, none, none, none⟩,
        ⟨some "7", some "B00000000", none, none, none, none, none, none, none, none⟩],
       [⟨some "2", some "Q2818013A", none, none, none, none, none, none, none, none⟩]]) ∧
    (∀ t ∈ load_licitacion none
      [[⟨some "1", some "Q2818013A", none, none, none, none, none, none, none, none⟩,
        ⟨some "1", some "Q2818013A", none, none, none, none, none, none, none, none⟩,
        ⟨some "7", some "B00000000", none, none, none, none, none, none, none, none⟩],
       [⟨some "2", some "Q2818013A", none, none, none, none, none, none, none, none⟩]],
      t.base.nif_oc = UAM_NIF) := by
  have hcommit : licRunCommits (load_licitacion none
      [[⟨some "1", some "Q2818013A", none, none, none, none, none, none, none, none⟩,
        ⟨some "1", some "Q2818013A", none, none, none, none, none, none, none, none⟩,
        ⟨some "7", some "B00000000", none, none, none, none, none, none, none, none⟩],
       [⟨some "2", some "Q2818013A", none, none, none, none, none, none, none, none⟩]]) := by
    constructor
    · decide
    · decide
  exact ⟨hcommit,
    (load_licitacion_unique_identifiers none _ hcommit).1⟩

/-! ## Embedding attachment (claim C4) -/

/-- With no computed batch every inserted tuple carries a null embedding. -/

theorem attachEmbAux_embedding_none (i : Nat) (bs : List LicBaseRow) :
    ∀ t ∈ attachEmbAux [] i bs, t.embedding = none := by
  induction bs generalizing i with
  | nil => intro t ht; cases ht
  | cons b rest ih =>
    intro t ht
    simp only [attachEmbAux, List.mem_cons] at ht
    rcases ht with rfl | ht'
    · simp
    · exact ih (i + 1) t ht'

/-- With a long-enough batch the attachment loop pairs each tuple, in order,
with the literal of the batch vector at its own index. -/

theorem attachEmbAux_zipWith (es : List (List ℚ)) (i : Nat)
    (bs : List LicBaseRow) (hlen : i + bs.length ≤ es.length) :
    attachEmbAux es i bs =
      List.zipWith (fun b v =>
        { base := b, embedding := some (to_pgvector_literal v) })
        bs (es.drop i) := by
  induction bs generalizing i with
  | nil => simp [attachEmbAux]
  | cons b rest ih =>
    have hi : i < es.length := by
      simp only [List.length_cons] at hlen
      omega
    have hne : es.isEmpty = false := by
      rw [List.isEmpty_eq_false_iff_exists_mem]
      exact ⟨es[i], List.getElem_mem hi⟩
    have hdrop : es.drop i = es[i] :: es.drop (i + 1) :=
      List.drop_eq_getElem_cons hi
    rw [hdrop]
    simp only [attachEmbAux, List.zipWith_cons_cons]
    rw [ih (i + 1) (by simp only [List.length_cons] at hlen; omega)]
    rw [if_pos ⟨hne, hi⟩, List.getD_eq_getElem es [] hi]

/-- Per-file: when the embedding function succeeds with one vector per text,
the file's insert list pairs each kept source row, in order, with the
non-null literal of the vector the batch computed for that row's own
combined text — the batch being evaluated on exactly the kept rows'
combined texts. -/

theorem licLoadFile_embedding_vectors (f : EmbedFn)
    (hf : ∀ ts, ∃ es, f ts = some es ∧ es.length = ts.length)
    (seen : List (Option String)) (rows : List LicRow) :
    ∃ es,
      f ((keepFirstByAux licRawId seen (rows.filter licIsUAM)).map
          licCombinedText) = some es ∧
      es.length =
        (keepFirstByAux licRawId seen (rows.filter licIsUAM)).length ∧
      (licLoadFile (some f) seen rows).1 =
        List.zipWith (fun r v =>
            { base := mkLicBaseRow r
              embedding := some (to_pgvector_literal v) })
          (keepFirstByAux licRawId seen (rows.filter licIsUAM)) es := by
  obtain ⟨h1, h2, h3⟩ := lic_foldl_characterization rows
    { seen := seen, rows := [], texts := [], kept := 0,
      skipped_dups := 0, skipped_nif := 0 }
  simp only [List.nil_append] at h1 h2 h3
  obtain ⟨es, hes, heslen⟩ := hf ((keepFirstByAux licRawId seen
    (rows.filter licIsUAM)).map licCombinedText)
  refine ⟨es, hes, by rw [heslen, List.length_map], ?_⟩
  unfold licLoadFile
  simp only []
  split
  case isTrue hempty =>
    have hk : (keepFirstByAux licRawId seen (rows.filter licIsUAM)).map
        mkLicBaseRow = [] := by
      rw [← h2]
      exact List.isEmpty_iff.mp hempty
    have hknil : keepFirstByAux licRawId seen (rows.filter licIsUAM) = [] :=
      List.map_eq_nil_iff.mp hk
    rw [hknil]
    rfl
  case isFalse hempty =>
    have hkne : keepFirstByAux licRawId seen (rows.filter licIsUAM) ≠ [] := by
      intro hcon
      apply hempty
      rw [List.isEmpty_iff, h2, hcon]
      rfl
    have htne : (List.map licCombinedText (keepFirstByAux licRawId seen
        (rows.filter licIsUAM))).isEmpty = false := by
      rw [List.isEmpty_eq_false_iff_exists_mem]
      have hlen : 0 < (List.map licCombinedText (keepFirstByAux licRawId seen
          (rows.filter licIsUAM))).length := by
        rw [List.length_map]
        exact List.length_pos.mpr hkne
      rcases List.exists_mem_of_length_pos hlen with ⟨x, hx⟩
      exact ⟨x, hx⟩
    have hbatch : licEmbedBatch (some f) ((rows.foldl licStep
        { seen := seen, rows := [], texts := [], kept := 0,
          skipped_dups := 0, skipped_nif := 0 }).texts) = es := by
      rw [h3]
      simp [licEmbedBatch, htne, hes]
    rw [hbatch, h2, attachEmbAux_zipWith es 0 _ (by
      rw [heslen, List.length_map, List.length_map]
      omega), List.drop_zero, List.zipWith_map_left]

/-- Per-file: with no model available every inserted tuple carries a null
embedding. -/

theorem licLoadFile_embedding_null (seen : List (Option String))
    (rows : List LicRow) :
    ∀ t ∈ (licLoadFile none seen rows).1, t.embedding = none := by
  intro t ht
  unfold licLoadFile at ht
  simp only [] at ht
  split at ht
  · simp at ht
  · have hbatch : licEmbedBatch none (rows.foldl licStep
        { seen := seen, rows := [], texts := [], kept := 0,
          skipped_dups := 0, skipped_nif := 0 }).texts = [] := rfl
    rw [hbatch] at ht
    exact attachEmbAux_embedding_none 0 _ t ht

/-- Per-file: when the embedding computation raises (is caught and yields no
batch) every inserted tuple carries a null embedding. -/

theorem licLoadFile_embedding_failure (g : EmbedFn) (hg : ∀ ts, g ts = none)
    (seen : List (Option String)) (rows : List LicRow) :
    ∀ t ∈ (licLoadFile (some g) seen rows).1, t.embedding = none := by
  intro t ht
  unfold licLoadFile at ht
  simp only [] at ht
  split at ht
  · simp at ht
  · have hbatch : licEmbedBatch (some g) ((rows.foldl licStep
        { seen := seen, rows := [], texts := [], kept := 0,
          skipped_dups := 0, skipped_nif := 0 }).texts) = [] := by
      simp [licEmbedBatch, hg]
    rw [hbatch] at ht
    exact attachEmbAux_embedding_none 0 _ t ht

/-- Properties holding of every per-file insert hold of the whole run. -/

theorem load_licitacion_forall (embed? : Option EmbedFn) (P : LicInsertRow → Prop)
    (hP : ∀ seen rows, ∀ t ∈ (licLoadFile embed? seen rows).1, P t)
    (files : List (List LicRow)) :
    ∀ t ∈ load_licitacion embed? files, P t := by
  unfold load_licitacion
  suffices h : ∀ (fs : List (List LicRow))
      (acc : List LicInsertRow × List (Option String)),
      (∀ t ∈ acc.1, P t) →
      ∀ t ∈ (fs.foldl (fun acc rows =>
          let out := licLoadFile embed? acc.2 rows
          (acc.1 ++ out.1, out.2.seen)) acc).1, P t by
    exact h files ([], []) (by intro t ht; cases ht)
  intro fs
  induction fs with
  | nil => intro acc hacc t ht; exact hacc t ht
  | cons rows rest ih =>
    intro acc hacc t ht
    rw [List.foldl_cons] at ht
    refine ih _ ?_ t ht
    intro u hu
    simp only [] at hu
    rcases List.mem_append.mp hu with h | h
    · exact hacc u h
    · exact hP acc.2 rows u h

/-- Counterexample to C4 as stated: a kept tender row whose combined
embedding text is empty is nevertheless inserted with a non-null embedding —
the vector the embedding function computed for the empty string — whenever a
batch is computed. -/

theorem empty_text_embedded_not_null_counterexample :
    licCombinedText
      ⟨some "1", some "Q2818013A", none, none, none, none, none, none, none, none⟩ = "" ∧
    (load_licitacion (some (fun ts => some (ts.map (fun _ => [(1 : ℚ)]))))
        [[⟨some "1", some "Q2818013A", none, none, none, none, none, none, none, none⟩]]).map
      (fun t => t.embedding.isSome) = [true] := by
  constructor
  · decide
  · decide

/-- C4 (amended): null embeddings mark the absence of a computed batch, not
empty text: with no embedding model loaded every inserted tender tuple
carries a null embedding, and likewise when the embedding computation raises
(the exception is caught and no batch is produced); when the batch of a file
is computed successfully with one vector per text, the file's insert list
pairs each kept row, in order, with the non-null pgvector literal of the
vector computed for that row's own combined text — including rows whose
combined text is empty. -/

theorem load_licitacion_embedding_policy (files : List (List LicRow))
    (f g : EmbedFn) (hg : ∀ ts, g ts = none)
    (hf : ∀ ts, ∃ es, f ts = some es ∧ es.length = ts.length) :
    (∀ t ∈ load_licitacion none files, t.embedding = none) ∧
    (∀ t ∈ load_licitacion (some g) files, t.embedding = none) ∧
    (∀ seen rows, ∃ es,
      f ((keepFirstByAux licRawId seen (rows.filter licIsUAM)).map
          licCombinedText) = some es ∧
      es.length =
        (keepFirstByAux licRawId seen (rows.filter licIsUAM)).length ∧
      (licLoadFile (some f) seen rows).1 =
        List.zipWith (fun r v =>
            { base := mkLicBaseRow r
              embedding := some (to_pgvector_literal v) })
          (keepFirstByAux licRawId seen (rows.filter licIsUAM)) es) :=
  ⟨load_licitacion_forall none (fun t => t.embedding = none)
      (fun seen rows => licLoadFile_embedding_null seen rows) files,
    load_licitacion_forall (some g) (fun t => t.embedding = none)
      (fun seen rows => licLoadFile_embedding_failure g hg seen rows) files,
    fun seen rows => licLoadFile_embedding_vectors f hf seen rows⟩

/-- Witness for C4 (amended) on a one-row file, with an always-succeeding
and an always-raising embedding function. -/

theorem load_licitacion_embedding_policy_witness :
    (∀ t ∈ load_licitacion none
        [[⟨some "1", some "Q2818013A", none, none, none, none, none, none, none, none⟩]],
      t.embedding = none) ∧
    (∀ t ∈ load_licitacion (some (fun _ => none))
        [[⟨some "1", some "Q2818013A", none, none, none, none, none, none, none, none⟩]],
      t.embedding = none) ∧
    (∀ seen rows, ∃ es,
      (fun ts => some (ts.map (fun _ => [(1 : ℚ)])))
          ((keepFirstByAux licRawId seen (rows.filter licIsUAM)).map
            licCombinedText) = some es ∧
      es.length =
        (keepFirstByAux licRawId seen (rows.filter licIsUAM)).length ∧
      (licLoadFile (some (fun ts => some (ts.map (fun _ => [(1 : ℚ)]))))
          seen rows).1 =
        List.zipWith (fun r v =>
            { base := mkLicBaseRow r
              embedding := some (to_pgvector_literal v) })
          (keepFirstByAux licRawId seen (rows.filter licIsUAM)) es) :=
  load_licitacion_embedding_policy
    [[⟨some "1", some "Q2818013A", none, none, none, none, none, none, none, none⟩]]
    (fun ts => some (ts.map (fun _ => [(1 : ℚ)])))
    (fun _ => none)
    (fun _ => rfl)
    (fun ts => ⟨ts.map (fun _ => [(1 : ℚ)]), rfl, by simp⟩)

/-! ## Similarity query (claim C8) -/

/-- The dummy embedding always has exactly the requested dimension. -/

theorem dummy_embedding_length (t : String) (dim : Nat) :
    (dummy_embedding t dim).length = dim := by
  unfold dummy_embedding
  simp

/-- C8: the query path embeds the query text with the same embedding function
used at ingestion (at the requested dimension); when that dimension differs
from the stored column width the retrieval fails with the dimension-mismatch
error; otherwise it returns rows ordered by ascending distance, limited to
`k` — a sorted top-`k` selection of the stored rows. -/

theorem query_documents_ranked_retrieval (docs : List StoredDoc) (q : String)
    (dim w k : Nat)
    (hw : ∀ d ∈ docs, d.emb.length = w)
    (hne : docs ≠ []) :
    (dummy_embedding q dim).length = dim ∧
    (dim ≠ w → query_documents docs q dim k = .error .dimensionMismatch) ∧
    (dim = w → ∃ res rest,
      query_documents docs q dim k = .ok res ∧
      res.length = min k docs.length ∧
      List.Pairwise (fun a b => a.2 ≤ b.2) res ∧
      (res ++ rest).Perm
        (docs.map (fun d => (d, l2sq d.emb (dummy_embedding q dim)))) ∧
      (∀ x ∈ res, ∀ y ∈ rest, x.2 ≤ y.2)) := by
  have hqlen : (dummy_embedding q dim).length = dim := dummy_embedding_length q dim
  refine ⟨hqlen, ?_, ?_⟩
  · intro hne_dim
    unfold query_documents run_similarity_query
    rw [if_pos]
    obtain ⟨d, hd⟩ := List.exists_mem_of_ne_nil docs hne
    refine List.any_eq_true.mpr ⟨d, hd, ?_⟩
    have : d.emb.length = w := hw d hd
    simp [this, hqlen]
    omega
  · intro hdim
    have hany : docs.any
        (fun d => d.emb.length != (dummy_embedding q dim).length) = false := by
      rw [List.any_eq_false]
      intro d hd
      have : d.emb.length = w := hw d hd
      simp [this, hqlen, hdim]
      rw [dummy_embedding_length]
    refine ⟨((docs.map (fun d => (d, l2sq d.emb (dummy_embedding q dim)))).mergeSort
        (fun a b => decide (a.2 ≤ b.2))).take k,
      ((docs.map (fun d => (d, l2sq d.emb (dummy_embedding q dim)))).mergeSort
        (fun a b => decide (a.2 ≤ b.2))).drop k, ?_, ?_, ?_, ?_, ?_⟩
    · unfold query_documents run_similarity_query
      rw [if_neg (by rw [hany]; exact Bool.false_ne_true)]
    · rw [List.length_take, List.length_mergeSort, List.length_map]
    · have hsorted := @List.sorted_mergeSort _
        (fun (a b : StoredDoc × ℚ) => decide (a.2 ≤ b.2))
        (fun a b c hab hbc => by
          simp only [decide_eq_true_eq] at hab hbc ⊢
          exact le_trans hab hbc)
        (fun a b => by
          simp only [Bool.or_eq_true, decide_eq_true_eq]
          exact le_total a.2 b.2)
        (docs.map (fun d => (d, l2sq d.emb (dummy_embedding q dim))))
      have := hsorted.sublist (List.take_sublist k _)
      exact this.imp (fun h => by simpa using h)
    · rw [List.take_append_drop]
      exact List.mergeSort_perm _ _
    · have hsorted := @List.sorted_mergeSort _
        (fun (a b : StoredDoc × ℚ) => decide (a.2 ≤ b.2))
        (fun a b c hab hbc => by
          simp only [decide_eq_true_eq] at hab hbc ⊢
          exact le_trans hab hbc)
        (fun a b => by
          simp only [Bool.or_eq_true, decide_eq_true_eq]
          exact le_total a.2 b.2)
        (docs.map (fun d => (d, l2sq d.emb (dummy_embedding q dim))))
      rw [← List.take_append_drop k ((docs.map
        (fun d => (d, l2sq d.emb (dummy_embedding q dim)))).mergeSort
        (fun a b => decide (a.2 ≤ b.2)))] at hsorted
      have := (List.pairwise_append.mp hsorted).2.2
      intro x hx y hy
      simpa using this x hx y hy

/-- Witness for C8: one stored row of width 2 against a width-3 query embeds
the query at dimension 3 and fails with the dimension-mismatch error. -/

theorem query_documents_ranked_retrieval_witness :
    (dummy_embedding "" 3).length = 3 ∧
    (3 ≠ 2 → query_documents [⟨some 1, none, none, none, [0, 0]⟩] "" 3 1 =
      .error .dimensionMismatch) ∧
    (3 = 2 → ∃ res rest,
      query_documents [⟨some 1, none, none, none, [0, 0]⟩] "" 3 1 = .ok res ∧
      res.length = min 1 [(⟨some 1, none, none, none, [0, 0]⟩ : StoredDoc)].length ∧
      List.Pairwise (fun a b => a.2 ≤ b.2) res ∧
      (res ++ rest).Perm
        ([(⟨some 1, none, none, none, [0, 0]⟩ : StoredDoc)].map
          (fun d => (d, l2sq d.emb (dummy_embedding "" 3)))) ∧
      (∀ x ∈ res, ∀ y ∈ rest, x.2 ≤ y.2)) :=
  query_documents_ranked_retrieval [⟨some 1, none, none, none, [0, 0]⟩] "" 3 2 1
    (by decide) (by decide)

/-- A whitespace character is its own upper-case image. -/

theorem whitespace_toUpper (c : Char) (h : c.isWhitespace = true) :
    c.toUpper = c := by
  simp only [Char.isWhitespace, Bool.or_eq_true, decide_eq_true_eq] at h
  obtain ((rfl | rfl) | rfl) | rfl := h <;> decide

/-- A digit character is its own upper-case image. -/

theorem digit_toUpper (c : Char) (h : c.isDigit = true) : c.toUpper = c := by
  simp only [Char.isDigit, Bool.and_eq_true, decide_eq_true_eq] at h
  have hle : c.toNat ≤ 57 := UInt32.toNat_le_of_le (by decide) h.2
  unfold Char.toUpper
  rw [if_neg]
  intro hcon
  omega

/-- A digit character is not whitespace. -/

theorem digit_not_whitespace (c : Char) (h : c.isDigit = true) :
    c.isWhitespace = false := by
  cases hw : c.isWhitespace
  · rfl
  · simp only [Char.isWhitespace, Bool.or_eq_true, decide_eq_true_eq] at hw
    obtain ((rfl | rfl) | rfl) | rfl := hw <;> simp at h

/-- `takeWhile` passes over an all-true prefix. -/

theorem takeWhile_append_of_all {α : Type} (p : α → Bool) (l₁ l₂ : List α)
    (h : ∀ a ∈ l₁, p a = true) :
    (l₁ ++ l₂).takeWhile p = l₁ ++ l₂.takeWhile p := by
  induction l₁ with
  | nil => simp
  | cons a l ih =>
    have ha : p a = true := h a (List.mem_cons_self a l)
    simp only [List.cons_append, List.takeWhile_cons, ha, if_true]
    rw [ih (fun b hb => h b (List.mem_cons_of_mem a hb))]

/-- `dropWhile` drops an all-true prefix. -/

theorem dropWhile_append_of_all {α : Type} (p : α → Bool) (l₁ l₂ : List α)
    (h : ∀ a ∈ l₁, p a = true) :
    (l₁ ++ l₂).dropWhile p = l₂.dropWhile p := by
  induction l₁ with
  | nil => simp
  | cons a l ih =>
    have ha : p a = true := h a (List.mem_cons_self a l)
    simp only [List.cons_append, List.dropWhile_cons, ha, if_true]
    exact ih (fun b hb => h b (List.mem_cons_of_mem a hb))

/-- `takeWhile` keeps an all-true list whole. -/

theorem takeWhile_eq_self_of_all {α : Type} (p : α → Bool) (l : List α)
    (h : ∀ a ∈ l, p a = true) : l.takeWhile p = l := by
  have := takeWhile_append_of_all p l [] h
  simpa using this

/-- `dropWhile` consumes an all-true list entirely. -/

theorem dropWhile_eq_nil_of_all {α : Type} (p : α → Bool) (l : List α)
    (h : ∀ a ∈ l, p a = true) : l.dropWhile p = [] := by
  have := dropWhile_append_of_all p l [] h
  simpa using this

/-- Sign splitting on a list that starts with neither sign character. -/

theorem splitSign_other (c : Char) (r : List Char) (h1 : c ≠ '+')
    (h2 : c ≠ '-') : splitSign (c :: r) = (false, c :: r) := by
  unfold splitSign
  split
  · next heq => cases heq; exact absurd rfl h1
  · next heq => cases heq; exact absurd rfl h2
  · rfl

/-- A map that fixes every element of a list fixes the list. -/

theorem map_eq_self_of_fixes {α : Type} (f : α → α) (l : List α)
    (h : ∀ a ∈ l, f a = a) : l.map f = l := by
  induction l with
  | nil => rfl
  | cons a r ih =>
    rw [List.map_cons, h a (List.mem_cons_self a r),
      ih (fun b hb => h b (List.mem_cons_of_mem a hb))]

/-- A digit character is not a sign character. -/

theorem digit_ne_sign (c : Char) (h : c.isDigit = true) :
    c ≠ '+' ∧ c ≠ '-' := by
  refine ⟨fun hc => ?_, fun hc => ?_⟩ <;>
    (subst hc; exact absurd h (by decide))

/-- Parse of a canonical significand with a dot fraction. -/

theorem parseNumericCore_digits_dot (neg : Bool) (ds fs : List Char)
    (hds : ds ≠ []) (hd : ∀ c ∈ ds, c.isDigit = true)
    (hf : ∀ c ∈ fs, c.isDigit = true) :
    parseNumericCore neg (ds ++ '.' :: fs) = some (sigVal neg ds fs) := by
  have hdsE : ds.isEmpty = false := by
    cases ds with
    | nil => exact absurd rfl hds
    | cons a l => rfl
  have hdot : ('.' : Char).isDigit = false := by decide
  unfold parseNumericCore
  rw [takeWhile_append_of_all _ ds ('.' :: fs) hd,
    dropWhile_append_of_all _ ds ('.' :: fs) hd]
  simp only [List.takeWhile_cons, List.dropWhile_cons, hdot, Bool.false_eq_true,
    if_false, List.append_nil]
  rw [takeWhile_eq_self_of_all _ fs hf, dropWhile_eq_nil_of_all _ fs hf]
  simp [hdsE, parseExpTail]

/-- Parse of a canonical all-digit significand. -/

theorem parseNumericCore_digits_only (neg : Bool) (ds : List Char)
    (hds : ds ≠ []) (hd : ∀ c ∈ ds, c.isDigit = true) :
    parseNumericCore neg ds = some (sigVal neg ds []) := by
  have hdsE : ds.isEmpty = false := by
    cases ds with
    | nil => exact absurd rfl hds
    | cons a l => rfl
  unfold parseNumericCore
  rw [takeWhile_eq_self_of_all _ ds hd, dropWhile_eq_nil_of_all _ ds hd]
  simp [hdsE, parseExpTail]

/-- Inversion of the specification-side numeral denotation: a denoted string
decomposes into sign, digit run and optional marker-separated fraction. -/

theorem decimalNumeralVal?_inv (marker : Char) (s : String) (v : ℚ)
    (h : decimalNumeralVal? marker s = some v) :
    ∃ (sgn : List Char) (neg : Bool) (ds fs : List Char) (mk : Bool),
      s.toList = sgn ++ ds ++ (if mk then marker :: fs else []) ∧
      ((sgn = [] ∧ neg = false) ∨ (sgn = ['+'] ∧ neg = false) ∨
        (sgn = ['-'] ∧ neg = true)) ∧
      ds ≠ [] ∧ (∀ c ∈ ds, c.isDigit = true) ∧ (∀ c ∈ fs, c.isDigit = true) ∧
      v = sigVal neg ds (if mk then fs else []) := by
  unfold decimalNumeralVal? at h
  simp only [] at h
  rcases hss : splitSign s.toList with ⟨neg, cs1⟩
  rw [hss] at h
  simp only [] at h
  have hdecomp : ∃ sgn, s.toList = sgn ++ cs1 ∧
      ((sgn = [] ∧ neg = false) ∨ (sgn = ['+'] ∧ neg = false) ∨
        (sgn = ['-'] ∧ neg = true)) := by
    cases hsl : s.toList with
    | nil =>
      rw [hsl] at hss
      simp only [splitSign, Prod.mk.injEq] at hss
      exact ⟨[], by simp [hss.2.symm], Or.inl ⟨rfl, hss.1.symm⟩⟩
    | cons c rest =>
      rw [hsl] at hss
      by_cases hc1 : c = '+'
      · subst hc1
        simp only [splitSign, Prod.mk.injEq] at hss
        exact ⟨['+'], by simp [hss.2.symm], Or.inr (Or.inl ⟨rfl, hss.1.symm⟩)⟩
      · by_cases hc2 : c = '-'
        · subst hc2
          simp only [splitSign, Prod.mk.injEq] at hss
          exact ⟨['-'], by simp [hss.2.symm], Or.inr (Or.inr ⟨rfl, hss.1.symm⟩)⟩
        · rw [splitSign_other c rest hc1 hc2] at hss
          have h1 : neg = false := by
            have := congrArg Prod.fst hss
            simpa using this.symm
          have h2 : cs1 = c :: rest := by
            have := congrArg Prod.snd hss
            simpa using this.symm
          exact ⟨[], by simp [h2], Or.inl ⟨rfl, h1⟩⟩
  obtain ⟨sgn, hsl, hsgncase⟩ := hdecomp
  split at h
  · exact absurd h (by simp)
  case isFalse hdsE =>
    have hds_ne : cs1.takeWhile Char.isDigit ≠ [] := by
      intro hcon
      rw [hcon] at hdsE
      exact hdsE rfl
    have hd : ∀ c ∈ cs1.takeWhile Char.isDigit, c.isDigit = true :=
      fun c hc => List.mem_takeWhile_imp hc
    split at h
    case h_1 heq =>
      have hc1eq : cs1 = cs1.takeWhile Char.isDigit := by
        conv_lhs => rw [← @List.takeWhile_append_dropWhile _ Char.isDigit cs1]
        rw [heq, List.append_nil]
      refine ⟨sgn, neg, cs1.takeWhile Char.isDigit, [], false, ?_, hsgncase,
        hds_ne, hd, ?_, ?_⟩
      · rw [hsl]
        simp only [Bool.false_eq_true, if_false, List.append_nil]
        exact congrArg (fun l => sgn ++ l) hc1eq
      · intro c hc
        cases hc
      · simp only [Bool.false_eq_true, if_false]
        exact (Option.some.inj h).symm
    case h_2 m r2 heq =>
      split at h
      case isTrue hm =>
        split at h
        case isTrue hcond =>
          have hr2 : r2.dropWhile Char.isDigit = [] :=
            List.isEmpty_iff.mp hcond.2
          have hr2eq : r2 = r2.takeWhile Char.isDigit := by
            conv_lhs => rw [← @List.takeWhile_append_dropWhile _ Char.isDigit r2]
            rw [hr2, List.append_nil]
          refine ⟨sgn, neg, cs1.takeWhile Char.isDigit,
            r2.takeWhile Char.isDigit, true, ?_, hsgncase, hds_ne, hd,
            (fun c hc => List.mem_takeWhile_imp hc), ?_⟩
          · have hsplit2 : cs1 = cs1.takeWhile Char.isDigit ++ (m :: r2) := by
              conv_lhs => rw [← @List.takeWhile_append_dropWhile _ Char.isDigit cs1]
              rw [heq]
            rw [hsl]
            conv_lhs => rw [hsplit2]
            rw [← hr2eq, hm]
            simp [List.append_assoc]
          · simp only [if_true]
            exact (Option.some.inj h).symm
        case isFalse => exact absurd h (by simp)
      case isFalse => exact absurd h (by simp)

/-- Unfolding helper: the character list of a constructed string. -/

theorem mk_toList (l : List Char) : (String.mk l).toList = l := rfl

/-- Stripping changes nothing on a list without whitespace. -/

theorem pyStripList_eq_self_of_no_ws (cs : List Char)
    (h : ∀ c ∈ cs, c.isWhitespace = false) : pyStripList cs = cs := by
  have k : ∀ (l : List Char), (∀ c ∈ l, c.isWhitespace = false) →
      l.dropWhile Char.isWhitespace = l := by
    intro l hl
    cases l with
    | nil => rfl
    | cons a r => simp [List.dropWhile_cons, hl a (List.mem_cons_self a r)]
  unfold pyStripList
  rw [k cs h, k cs.reverse (fun c hc => h c (List.mem_reverse.mp hc)),
    List.reverse_reverse]

/-- Python `strip` changes nothing on a string without whitespace. -/

theorem pyStrip_eq_self (s : String)
    (h : ∀ c ∈ s.toList, c.isWhitespace = false) : pyStrip s = s := by
  unfold pyStrip
  rw [pyStripList_eq_self_of_no_ws _ h]
  cases s
  rfl

/-- The `Decimal` constructor on a canonical numeral string. -/

theorem Decimal_ofString_canonical (T sgn ds fs : List Char) (neg mk : Bool)
    (hT : T = sgn ++ ds ++ (if mk then '.' :: fs else []))
    (hsgn : (sgn = [] ∧ neg = false) ∨ (sgn = ['+'] ∧ neg = false) ∨
      (sgn = ['-'] ∧ neg = true))
    (hds : ds ≠ []) (hd : ∀ c ∈ ds, c.isDigit = true)
    (hf : ∀ c ∈ fs, c.isDigit = true)
    (hnws : ∀ c ∈ T, c.isWhitespace = false)
    (hnund : ∀ c ∈ T, c ≠ '_') :
    Decimal_ofString (String.mk T) =
      .ok (sigVal neg ds (if mk then fs else [])) := by
  have hcore : parseNumericCore neg (ds ++ (if mk then '.' :: fs else [])) =
      some (sigVal neg ds (if mk then fs else [])) := by
    cases mk with
    | false =>
      simp only [Bool.false_eq_true, if_false, List.append_nil]
      exact parseNumericCore_digits_only neg ds hds hd
    | true =>
      simp only [if_true]
      exact parseNumericCore_digits_dot neg ds fs hds hd hf
  have hparse : parseNumeric T = some (sigVal neg ds (if mk then fs else [])) := by
    unfold parseNumeric
    rcases hsgn with ⟨rfl, rfl⟩ | ⟨rfl, rfl⟩ | ⟨rfl, rfl⟩
    · cases ds with
      | nil => exact absurd rfl hds
      | cons d tl =>
        have hdd := hd d (List.mem_cons_self d tl)
        have hsign := digit_ne_sign d hdd
        rw [hT]
        simp only [List.nil_append, List.cons_append]
        rw [splitSign_other d _ hsign.1 hsign.2]
        simpa using hcore
    · rw [hT]
      simp only [List.cons_append, List.nil_append]
      rw [show splitSign ('+' :: (ds ++ if mk = true then '.' :: fs else [])) =
        (false, ds ++ if mk = true then '.' :: fs else []) from rfl]
      exact hcore
    · rw [hT]
      simp only [List.cons_append, List.nil_append]
      rw [show splitSign ('-' :: (ds ++ if mk = true then '.' :: fs else [])) =
        (true, ds ++ if mk = true then '.' :: fs else []) from rfl]
      exact hcore
  unfold Decimal_ofString
  rw [mk_toList, pyStripList_eq_self_of_no_ws T hnws,
    List.filter_eq_self.mpr (by intro a ha; simpa using hnund a ha), hparse]

/-- A string whose upper-case image avoids digits cannot be the upper-case
image of a string containing a digit. -/

theorem pyUpper_ne_of_digit_mem (s t : String)
    (htd : ∀ c ∈ t.toList, c.isDigit = false) (c : Char) (hc : c ∈ s.toList)
    (hcd : c.isDigit = true) : pyUpper s ≠ t := by
  intro h
  have hmem : c.toUpper ∈ t.toList := by
    rw [← h]
    unfold pyUpper
    rw [mk_toList]
    exact List.mem_map_of_mem Char.toUpper hc
  rw [digit_toUpper c hcd] at hmem
  have := htd c hmem
  rw [hcd] at this
  cases this

/-- `to_decimal` on a canonical comma-marked numeral string. -/

theorem to_decimal_canonical (s : String) (sgn : List Char) (neg : Bool)
    (ds fs : List Char) (mk : Bool)
    (hsl : s.toList = sgn ++ ds ++ (if mk then ',' :: fs else []))
    (hsgn : (sgn = [] ∧ neg = false) ∨ (sgn = ['+'] ∧ neg = false) ∨
      (sgn = ['-'] ∧ neg = true))
    (hds : ds ≠ []) (hd : ∀ c ∈ ds, c.isDigit = true)
    (hf : ∀ c ∈ fs, c.isDigit = true) :
    to_decimal (some s) = .ok (some (sigVal neg ds (if mk then fs else []))) := by
  have hsgnchars : ∀ c ∈ sgn, c = '+' ∨ c = '-' := by
    rcases hsgn with ⟨rfl, _⟩ | ⟨rfl, _⟩ | ⟨rfl, _⟩
    · intro c hc; cases hc
    · intro c hc
      simp only [List.mem_singleton] at hc
      exact Or.inl hc
    · intro c hc
      simp only [List.mem_singleton] at hc
      exact Or.inr hc
  have hcls : ∀ c ∈ s.toList,
      c.isDigit = true ∨ c = '+' ∨ c = '-' ∨ c = ',' := by
    intro c hc
    rw [hsl] at hc
    rcases List.mem_append.mp hc with hc' | hc'
    · rcases List.mem_append.mp hc' with hc'' | hc''
      · rcases hsgnchars c hc'' with rfl | rfl
        · exact Or.inr (Or.inl rfl)
        · exact Or.inr (Or.inr (Or.inl rfl))
      · exact Or.inl (hd c hc'')
    · cases mk with
      | false => simp at hc'
      | true =>
        simp only [if_true, List.mem_cons] at hc'
        rcases hc' with rfl | hc''
        · exact Or.inr (Or.inr (Or.inr rfl))
        · exact Or.inl (hf c hc'')
  have hnws : ∀ c ∈ s.toList, c.isWhitespace = false := by
    intro c hc
    rcases hcls c hc with h | rfl | rfl | rfl
    · exact digit_not_whitespace c h
    · decide
    · decide
    · decide
  have hstrip : pyStrip s = s := pyStrip_eq_self s hnws
  have hdsmem : ∃ d, d ∈ ds ∧ d.isDigit = true := by
    cases ds with
    | nil => exact absurd rfl hds
    | cons d tl => exact ⟨d, List.mem_cons_self d tl, hd d (List.mem_cons_self d tl)⟩
  obtain ⟨d, hdmem, hddig⟩ := hdsmem
  have hds_s : d ∈ s.toList := by
    rw [hsl]
    exact List.mem_append.mpr (Or.inl (List.mem_append.mpr (Or.inr hdmem)))
  have hsne : s ≠ "" := by
    intro hcon
    rw [hcon] at hds_s
    cases hds_s
  have hNA : pyUpper s ≠ "NA" :=
    pyUpper_ne_of_digit_mem s "NA" (by decide) d hds_s hddig
  have hNULL : pyUpper s ≠ "NULL" :=
    pyUpper_ne_of_digit_mem s "NULL" (by decide) d hds_s hddig
  have hfilter : s.toList.filter (fun c => c ≠ '.') = s.toList := by
    apply List.filter_eq_self.mpr
    intro a ha
    rcases hcls a ha with h | rfl | rfl | rfl
    · simp only [ne_eq, decide_eq_true_eq]
      intro hcon
      rw [hcon] at h
      exact absurd h (by decide)
    · decide
    · decide
    · decide
  have hmap : s.toList.map (fun c => if c = ',' then '.' else c) =
      sgn ++ ds ++ (if mk then '.' :: fs else []) := by
    rw [hsl]
    rw [List.map_append, List.map_append]
    congr 1
    · congr 1
      · apply map_eq_self_of_fixes
        intro a ha
        rcases hsgnchars a ha with rfl | rfl <;> decide
      · apply map_eq_self_of_fixes
        intro a ha
        have := hd a ha
        rw [if_neg]
        intro hcon
        rw [hcon] at this
        exact absurd this (by decide)
    · cases mk with
      | false => rfl
      | true =>
        simp only [if_true, List.map_cons, if_pos rfl]
        congr 1
        apply map_eq_self_of_fixes
        intro a ha
        have := hf a ha
        rw [if_neg]
        intro hcon
        rw [hcon] at this
        exact absurd this (by decide)
  have hT_nws : ∀ c ∈ sgn ++ ds ++ (if mk then '.' :: fs else []),
      c.isWhitespace = false := by
    intro c hc
    rcases List.mem_append.mp hc with hc' | hc'
    · rcases List.mem_append.mp hc' with hc'' | hc''
      · rcases hsgnchars c hc'' with rfl | rfl <;> decide
      · exact digit_not_whitespace c (hd c hc'')
    · cases mk with
      | false => simp at hc'
      | true =>
        simp only [if_true, List.mem_cons] at hc'
        rcases hc' with rfl | hc''
        · decide
        · exact digit_not_whitespace c (hf c hc'')
  have hT_und : ∀ c ∈ sgn ++ ds ++ (if mk then '.' :: fs else []), c ≠ '_' := by
    intro c hc
    rcases List.mem_append.mp hc with hc' | hc'
    · rcases List.mem_append.mp hc' with hc'' | hc''
      · rcases hsgnchars c hc'' with rfl | rfl <;> decide
      · have := hd c hc''
        intro hcon
        rw [hcon] at this
        exact absurd this (by decide)
    · cases mk with
      | false => simp at hc'
      | true =>
        simp only [if_true, List.mem_cons] at hc'
        rcases hc' with rfl | hc''
        · decide
        · have := hf c hc''
          intro hcon
          rw [hcon] at this
          exact absurd this (by decide)
  have hDec := Decimal_ofString_canonical
    (sgn ++ ds ++ (if mk then '.' :: fs else [])) sgn ds fs neg mk rfl hsgn
    hds hd hf hT_nws hT_und
  unfold to_decimal
  simp only []
  rw [hstrip, if_neg (by
    push_neg
    exact ⟨hsne, hNA, hNULL⟩)]
  rw [show String.mk (s.toList.filter (fun c => c ≠ '.')) = s from by
    rw [hfilter]; cases s; rfl]
  rw [mk_toList]
  have hmap' : s.data.map (fun c => if c = ',' then '.' else c) =
      sgn ++ ds ++ (if mk then '.' :: fs else []) := hmap
  rw [hmap', hDec]

/-- Strings whose upper-case image avoids whitespace come from strings
without whitespace. -/

theorem no_ws_of_pyUpper_eq (s t : String)
    (ht : ∀ c ∈ t.toList, c.isWhitespace = false) (h : pyUpper s = t) :
    ∀ c ∈ s.toList, c.isWhitespace = false := by
  intro c hc
  cases hw : c.isWhitespace
  · rfl
  · exfalso
    have hmem : c.toUpper ∈ t.toList := by
      rw [← h]
      unfold pyUpper
      rw [mk_toList]
      exact List.mem_map_of_mem Char.toUpper hc
    rw [whitespace_toUpper c hw] at hmem
    have := ht c hmem
    rw [hw] at this
    cases this

/-- `to_decimal` returns null on the empty string and on `NA`/`NULL` in any
letter case. -/

theorem to_decimal_null_markers (s : String)
    (h : s = "" ∨ pyUpper s = "NA" ∨ pyUpper s = "NULL") :
    to_decimal (some s) = .ok none := by
  rcases h with rfl | h | h
  · rfl
  · have hnws := no_ws_of_pyUpper_eq s "NA" (by decide) h
    have hstrip := pyStrip_eq_self s hnws
    unfold to_decimal
    simp only []
    rw [hstrip, if_pos (Or.inr (Or.inl h))]
  · have hnws := no_ws_of_pyUpper_eq s "NULL" (by decide) h
    have hstrip := pyStrip_eq_self s hnws
    unfold to_decimal
    simp only []
    rw [hstrip, if_pos (Or.inr (Or.inr h))]

/-- Counterexample to C1 as stated: `3.14` is a valid decimal numeral using
`.` as the decimal marker, denoting 157/50, but `to_decimal` deletes every
dot as a thousands separator first and returns 314. -/

theorem to_decimal_dot_marker_counterexample :
    decimalNumeralVal? '.' "3.14" = some (157 / 50) ∧
    to_decimal (some "3.14") = .ok (some 314) ∧
    (157 : ℚ) / 50 ≠ 314 := by
  refine ⟨?_, ?_, by norm_num⟩
  · have h : decimalNumeralVal? '.' "3.14" =
        some (sigVal false ['3'] ['1', '4']) := rfl
    rw [h]
    congr 1
    simp +decide [sigVal, charsVal, digitVal, List.foldl]
    norm_num
  · have h : to_decimal (some "3.14") =
        .ok (some (sigVal false ['3', '1', '4'] [])) := rfl
    rw [h]
    simp only [Except.ok.injEq, Option.some.injEq]
    simp +decide [sigVal, charsVal, digitVal, List.foldl]

/-- C1 (amended): `to_decimal` recovers the correct numeric value of every
valid decimal numeral that uses `,` as the decimal marker, and returns null
on every string that is empty, `NA` or `NULL` in any letter case; numerals
using `.` as the decimal marker are instead reinterpreted with the dot as a
thousands separator. -/

theorem to_decimal_comma_numerals (s : String) :
    (∀ v, decimalNumeralVal? ',' s = some v →
      to_decimal (some s) = .ok (some v)) ∧
    ((s = "" ∨ pyUpper s = "NA" ∨ pyUpper s = "NULL") →
      to_decimal (some s) = .ok none) := by
  constructor
  · intro v h
    obtain ⟨sgn, neg, ds, fs, mk, hsl, hsgn, hds, hd, hf, hv⟩ :=
      decimalNumeralVal?_inv ',' s v h
    rw [hv]
    exact to_decimal_canonical s sgn neg ds fs mk hsl hsgn hds hd hf
  · exact to_decimal_null_markers s

/-- Witness for C1 (amended): `12,5` parses to 25/2 and `Na` parses to
null. -/

theorem to_decimal_comma_numerals_witness :
    to_decimal (some "12,5") = .ok (some (25 / 2)) ∧
    to_decimal (some "Na") = .ok none := by
  constructor
  · have hval : decimalNumeralVal? ',' "12,5" =
        some (sigVal false ['1', '2'] ['5']) := rfl
    have hsig : sigVal false ['1', '2'] ['5'] = 25 / 2 := by
      simp +decide [sigVal, charsVal, digitVal, List.foldl]
      norm_num
    exact (to_decimal_comma_numerals "12,5").1 (25 / 2)
      (by rw [hval, hsig])
  · exact (to_decimal_comma_numerals "Na").2 (Or.inr (Or.inl (by decide)))

/-- The fueled digit extraction agrees with `Nat.digits` given enough fuel. -/

theorem natDigitsRev_eq_digits (fuel n : Nat) (h : n ≤ fuel) :
    natDigitsRev fuel n = Nat.digits 10 n := by
  induction fuel generalizing n with
  | zero =>
    have : n = 0 := Nat.le_zero.mp h
    subst this
    simp [natDigitsRev]
  | succ fuel ih =>
    cases n with
    | zero => simp [natDigitsRev]
    | succ n =>
      rw [Nat.digits_def' (by norm_num : 1 < 10) (Nat.succ_pos n)]
      unfold natDigitsRev
      rw [ih ((n + 1) / 10) ?_]
      have := Nat.div_lt_self (Nat.succ_pos n) (by norm_num : 1 < 10)
      omega

/-- A digit value below ten renders to a digit character. -/

theorem digitChar_isDigit (d : Nat) (h : d < 10) :
    (digitChar d).isDigit = true := by
  interval_cases d <;> decide

/-- Rendering then reading a digit value below ten is the identity. -/

theorem digitVal_digitChar (d : Nat) (h : d < 10) :
    digitVal (digitChar d) = d := by
  interval_cases d <;> decide

/-- The digit characters of a natural number are digits. -/

theorem natChars_all_digits (n : Nat) :
    ∀ c ∈ natChars n, c.isDigit = true := by
  intro c hc
  unfold natChars at hc
  split at hc
  · simp only [List.mem_singleton] at hc
    subst hc
    decide
  · rw [natDigitsRev_eq_digits n n le_rfl] at hc
    simp only [List.mem_reverse, List.mem_map] at hc
    obtain ⟨d, hd, rfl⟩ := hc
    exact digitChar_isDigit d (Nat.digits_lt_base (by norm_num) hd)

/-- The rendered digit run of a natural number is nonempty. -/

theorem natChars_ne_nil (n : Nat) : natChars n ≠ [] := by
  unfold natChars
  split
  · simp
  · next h =>
    have : Nat.digits 10 n ≠ [] := Nat.digits_ne_nil_iff_ne_zero.mpr h
    rw [natDigitsRev_eq_digits n n le_rfl]
    simp [this]

/-- Reading back a big-endian digit rendering, with an accumulator. -/

theorem foldl_reverse_map_digitChar (l : List Nat) (hl : ∀ d ∈ l, d < 10)
    (a : Nat) :
    ((l.map digitChar).reverse).foldl (fun acc c => 10 * acc + digitVal c) a =
      a * 10 ^ l.length + Nat.ofDigits 10 l := by
  induction l generalizing a with
  | nil => simp
  | cons d L ih =>
    have hd : d < 10 := hl d (List.mem_cons_self d L)
    have hL : ∀ e ∈ L, e < 10 := fun e he => hl e (List.mem_cons_of_mem d he)
    simp only [List.map_cons, List.reverse_cons, List.foldl_append,
      List.foldl_cons, List.foldl_nil]
    rw [ih hL, digitVal_digitChar d hd, Nat.ofDigits_cons]
    simp only [List.length_cons, pow_succ]
    ring

/-- Reading back the rendered digits of a natural number gives it back. -/

theorem charsVal_natChars (n : Nat) : charsVal (natChars n) = n := by
  unfold natChars
  split
  · next h => subst h; decide
  · next h =>
    rw [natDigitsRev_eq_digits n n le_rfl]
    unfold charsVal
    rw [foldl_reverse_map_digitChar (Nat.digits 10 n)
      (fun d hd => Nat.digits_lt_base (by norm_num) hd) 0]
    simp [Nat.ofDigits_digits]

/-- Digit-run length bound: below `10 ^ k` at most `k` digits are rendered
(for positive `k`). -/

theorem natChars_length_le (n k : Nat) (hk : 1 ≤ k) (h : n < 10 ^ k) :
    (natChars n).length ≤ k := by
  unfold natChars
  split
  · simpa using hk
  · next hn =>
    rw [natDigitsRev_eq_digits n n le_rfl]
    simp only [List.length_reverse, List.length_map]
    by_contra hcon
    push_neg at hcon
    have h1 : 10 ^ (k + 1) ≤ 10 ^ (Nat.digits 10 n).length :=
      Nat.pow_le_pow_right (by norm_num) hcon
    have h2 : 10 ^ (Nat.digits 10 n).length ≤ 10 * n :=
      Nat.base_pow_length_digits_le 10 n (by norm_num) hn
    have h3 : 10 ^ (k + 1) = 10 * 10 ^ k := by ring
    omega

/-- Reading a zero-padded digit run ignores the padding. -/

theorem charsVal_padZeros (k : Nat) (cs : List Char) :
    charsVal (padZeros k cs) = charsVal cs := by
  unfold padZeros charsVal
  rw [List.foldl_append]
  have : ∀ (m : Nat), (List.replicate m '0').foldl
      (fun a c => 10 * a + digitVal c) 0 = 0 := by
    intro m
    induction m with
    | zero => rfl
    | succ m ih => simpa [List.replicate_succ, digitVal] using ih
  rw [this (k - cs.length)]

/-- Padded digit runs have the padded length when the run is short enough. -/

theorem padZeros_length (k : Nat) (cs : List Char) (h : cs.length ≤ k) :
    (padZeros k cs).length = k := by
  unfold padZeros
  simp only [List.length_append, List.length_replicate]
  omega

/-- Padding with zeros preserves digitness. -/

theorem padZeros_all_digits (k : Nat) (cs : List Char)
    (h : ∀ c ∈ cs, c.isDigit = true) :
    ∀ c ∈ padZeros k cs, c.isDigit = true := by
  intro c hc
  unfold padZeros at hc
  rcases List.mem_append.mp hc with hc' | hc'
  · have := List.eq_of_mem_replicate hc'
    subst this
    decide
  · exact h c hc'

/-- Rounding a nonnegative value is nonnegative. -/

theorem roundHalfEven_nonneg (q : ℚ) (h : 0 ≤ q) : 0 ≤ roundHalfEven q := by
  have hf : 0 ≤ Rat.floor q := Rat.le_floor.mpr (by exact_mod_cast h)
  unfold roundHalfEven
  split_ifs <;> omega

/-- Rounding a negative value is nonpositive. -/

theorem roundHalfEven_nonpos (q : ℚ) (h : q < 0) : roundHalfEven q ≤ 0 := by
  have hfq : (Rat.floor q : ℚ) ≤ q := Rat.le_floor.mp le_rfl
  have hf : Rat.floor q < 0 := by
    by_contra hcon
    push_neg at hcon
    have : (0 : ℚ) ≤ (Rat.floor q : ℚ) := by exact_mod_cast hcon
    linarith
  unfold roundHalfEven
  split_ifs <;> omega

/-- The shape of the fixed-point rendering. -/

theorem formatFixed10_eq (x : ℚ) :
    formatFixed10 x = (if x < 0 then ['-'] else []) ++
      natChars ((roundHalfEven (x * 10 ^ 10)).natAbs / 10 ^ 10) ++
      '.' :: padZeros 10 (natChars ((roundHalfEven (x * 10 ^ 10)).natAbs % 10 ^ 10)) :=
  rfl

/-- The significand value of the rendered magnitude digits. -/

theorem sigVal_format_digits (neg : Bool) (m : Nat) :
    sigVal neg (natChars (m / 10 ^ 10)) (padZeros 10 (natChars (m % 10 ^ 10))) =
      (if neg then -1 else 1) * ((m : ℚ) / 10 ^ 10) := by
  have hmod : m % 10 ^ 10 < 10 ^ 10 := Nat.mod_lt m (by positivity)
  have hlen : (padZeros 10 (natChars (m % 10 ^ 10))).length = 10 :=
    padZeros_length 10 _ (natChars_length_le _ 10 (by norm_num) hmod)
  have hdm : (m / 10 ^ 10) * 10 ^ 10 + m % 10 ^ 10 = m := by omega
  unfold sigVal
  rw [charsVal_natChars, charsVal_padZeros, charsVal_natChars, hlen]
  congr 1
  rw [eq_div_iff (by positivity : ((10 : ℚ) ^ 10) ≠ 0), add_mul,
    div_mul_cancel₀ _ (by positivity : ((10 : ℚ) ^ 10) ≠ 0)]
  exact_mod_cast hdm

/-- Parsing a signed canonical significand. -/

theorem parseNumeric_sign_digits_dot (neg : Bool) (ds fs : List Char)
    (hds : ds ≠ []) (hd : ∀ c ∈ ds, c.isDigit = true)
    (hf : ∀ c ∈ fs, c.isDigit = true) :
    parseNumeric ((if neg then ['-'] else []) ++ ds ++ '.' :: fs) =
      some (sigVal neg ds fs) := by
  cases neg with
  | true =>
    simp only [if_true, List.singleton_append, List.cons_append, List.nil_append]
    unfold parseNumeric
    rw [show splitSign ('-' :: (ds ++ '.' :: fs)) =
      (true, ds ++ '.' :: fs) from rfl]
    exact parseNumericCore_digits_dot true ds fs hds hd hf
  | false =>
    simp only [Bool.false_eq_true, if_false, List.nil_append]
    unfold parseNumeric
    cases ds with
    | nil => exact absurd rfl hds
    | cons d tl =>
      have hdd := hd d (List.mem_cons_self d tl)
      have hsign := digit_ne_sign d hdd
      rw [List.cons_append, splitSign_other d _ hsign.1 hsign.2]
      have := parseNumericCore_digits_dot false (d :: tl) fs hds hd hf
      simpa using this

/-- Parsing one rendered component recovers the value rounded to ten decimal
places. -/

theorem parseNumeric_formatFixed10 (x : ℚ) :
    parseNumeric (formatFixed10 x) = some (round10 x) := by
  have hip_ne : natChars ((roundHalfEven (x * 10 ^ 10)).natAbs / 10 ^ 10) ≠ [] :=
    natChars_ne_nil _
  have hip_dig := natChars_all_digits
    ((roundHalfEven (x * 10 ^ 10)).natAbs / 10 ^ 10)
  have hfp_dig := padZeros_all_digits 10 _
    (natChars_all_digits ((roundHalfEven (x * 10 ^ 10)).natAbs % 10 ^ 10))
  rw [formatFixed10_eq]
  by_cases hx : x < 0
  · have hq : x * 10 ^ 10 < 0 := mul_neg_of_neg_of_pos hx (by positivity)
    have hn : roundHalfEven (x * 10 ^ 10) ≤ 0 := roundHalfEven_nonpos _ hq
    have hn' : ((roundHalfEven (x * 10 ^ 10) : ℤ) : ℚ) ≤ 0 := by exact_mod_cast hn
    have hcast : (((roundHalfEven (x * 10 ^ 10)).natAbs : ℕ) : ℚ) =
        -((roundHalfEven (x * 10 ^ 10) : ℤ) : ℚ) := by
      rw [Int.cast_natAbs, abs_of_nonpos hn]
      push_cast
      ring
    rw [if_pos hx]
    have hparse := parseNumeric_sign_digits_dot true
      (natChars ((roundHalfEven (x * 10 ^ 10)).natAbs / 10 ^ 10))
      (padZeros 10 (natChars ((roundHalfEven (x * 10 ^ 10)).natAbs % 10 ^ 10)))
      hip_ne hip_dig hfp_dig
    simp only [if_true] at hparse
    rw [hparse, sigVal_format_digits true _]
    unfold round10
    congr 1
    simp only [if_true]
    rw [hcast]
    ring
  · have hq : 0 ≤ x * 10 ^ 10 := by
      push_neg at hx
      positivity
    have hn : 0 ≤ roundHalfEven (x * 10 ^ 10) := roundHalfEven_nonneg _ hq
    have hn' : (0 : ℚ) ≤ ((roundHalfEven (x * 10 ^ 10) : ℤ) : ℚ) := by exact_mod_cast hn
    have hcast : (((roundHalfEven (x * 10 ^ 10)).natAbs : ℕ) : ℚ) =
        ((roundHalfEven (x * 10 ^ 10) : ℤ) : ℚ) := by
      rw [Int.cast_natAbs, abs_of_nonneg hn]
    rw [if_neg hx, List.nil_append]
    have hparse := parseNumeric_sign_digits_dot false
      (natChars ((roundHalfEven (x * 10 ^ 10)).natAbs / 10 ^ 10))
      (padZeros 10 (natChars ((roundHalfEven (x * 10 ^ 10)).natAbs % 10 ^ 10)))
      hip_ne hip_dig hfp_dig
    simp only [Bool.false_eq_true, if_false, List.nil_append] at hparse
    rw [hparse, sigVal_format_digits false _]
    unfold round10
    congr 1
    simp only [Bool.false_eq_true, if_false]
    rw [hcast]
    ring

/-- Character classes occurring in a rendered component. -/

theorem formatFixed10_chars (x : ℚ) :
    ∀ c ∈ formatFixed10 x, c = '-' ∨ c = '.' ∨ c.isDigit = true := by
  intro c hc
  rw [formatFixed10_eq] at hc
  rcases List.mem_append.mp hc with hc' | hf
  · rcases List.mem_append.mp hc' with hs | hn
    · left
      split at hs
      · simpa using hs
      · simp at hs
    · right; right
      exact natChars_all_digits _ c hn
  · rcases List.mem_cons.mp hf with hdot | hfr
    · right; left; exact hdot
    · right; right
      exact padZeros_all_digits 10 _ (natChars_all_digits _) c hfr

/-- A decimal digit differs from any non-digit character. -/

theorem isDigit_ne (c d : Char) (h : c.isDigit = true) (hd : d.isDigit = false) :
    c ≠ d := by
  intro e
  subst e
  rw [h] at hd
  cases hd

/-- Rendered components contain neither commas nor brackets. -/

theorem formatFixed10_free (x : ℚ) :
    ∀ c ∈ formatFixed10 x,
      c ≠ ',' ∧ (['[', ']'] : List Char).contains c = false := by
  intro c hc
  rcases formatFixed10_chars x c hc with h | h | h
  · subst h; exact ⟨by decide, by decide⟩
  · subst h; exact ⟨by decide, by decide⟩
  · refine ⟨isDigit_ne c ',' h (by decide), ?_⟩
    cases hb : (['[', ']'] : List Char).contains c with
    | false => rfl
    | true =>
      have hmem : c ∈ (['[', ']'] : List Char) := by simpa using hb
      simp only [List.mem_cons, List.not_mem_nil, or_false] at hmem
      rcases hmem with rfl | rfl <;> exact absurd h (by decide)

/-- Members of a comma-join are commas or member characters of the parts. -/

theorem joinComma_mem (parts : List (List Char)) (c : Char)
    (hc : c ∈ joinComma parts) : c = ',' ∨ ∃ p ∈ parts, c ∈ p := by
  induction parts with
  | nil => simp [joinComma] at hc
  | cons p ps ih =>
    cases ps with
    | nil =>
      right
      exact ⟨p, by simp, by simpa [joinComma] using hc⟩
    | cons q qs =>
      rw [show joinComma (p :: q :: qs) = p ++ ',' :: joinComma (q :: qs)
        from rfl] at hc
      rcases List.mem_append.mp hc with h1 | h1
      · right; exact ⟨p, by simp, h1⟩
      · rcases List.mem_cons.mp h1 with h2 | h2
        · left; exact h2
        · rcases ih h2 with h3 | ⟨r, hr, hcr⟩
          · left; exact h3
          · right; exact ⟨r, List.mem_cons_of_mem _ hr, hcr⟩

/-- `dropWhile` is the identity when no element satisfies the predicate. -/

theorem dropWhile_eq_self_of_none (p : Char → Bool) (l : List Char)
    (h : ∀ c ∈ l, p c = false) : l.dropWhile p = l := by
  cases l with
  | nil => rfl
  | cons a t =>
    rw [List.dropWhile_cons, h a (List.mem_cons_self a t)]
    simp

/-- Stripping the bracket wrapper recovers bracket-free content. -/

theorem pyStripSet_wrap (l : List Char)
    (hall : ∀ c ∈ l, (['[', ']'] : List Char).contains c = false) :
    pyStripSet ['[', ']'] ('[' :: (l ++ [']'])) = l := by
  unfold pyStripSet
  have h1 : ('[' :: (l ++ [']'])).dropWhile
      (fun c => (['[', ']'] : List Char).contains c) =
      (l ++ [']']).dropWhile (fun c => (['[', ']'] : List Char).contains c) := by
    rw [List.dropWhile_cons]
    simp
  rw [h1]
  cases l with
  | nil => rfl
  | cons a t =>
    have ha : (['[', ']'] : List Char).contains a = false :=
      hall a (List.mem_cons_self a t)
    rw [List.cons_append, List.dropWhile_cons, ha]
    simp only [Bool.false_eq_true, if_false]
    have h2 : (a :: (t ++ [']'])).reverse = ']' :: (t.reverse ++ [a]) := by
      simp
    rw [h2, List.dropWhile_cons]
    simp only [show (['[', ']'] : List Char).contains ']' = true from rfl,
      if_true]
    rw [dropWhile_eq_self_of_none _ _ ?_]
    · simp
    · intro c hcmem
      rcases List.mem_append.mp hcmem with h3 | h3
    

      · exact hall c (List.mem_cons_of_mem a (List.mem_reverse.mp h3))
      · rw [List.mem_singleton.mp h3]
        exact ha

/-- Splitting a comma-free run yields the single run. -/

theorem splitComma_no_comma (cs : List Char) (h : ∀ c ∈ cs, c ≠ ',') :
    splitComma cs = [cs] := by
  induction cs with
  | nil => rfl
  | cons c rest ih =>
    have hc : c ≠ ',' := h c (List.mem_cons_self c rest)
    have hrest := ih (fun d hd => h d (List.mem_cons_of_mem _ hd))
    simp only [splitComma]
    rw [if_neg hc, hrest]

/-- Splitting after a comma-free prefix and a comma peels the prefix. -/

theorem splitComma_append_comma (p t : List Char) (h : ∀ c ∈ p, c ≠ ',') :
    splitComma (p ++ ',' :: t) = p :: splitComma t := by
  induction p with
  | nil =>
    rw [List.nil_append]
    simp [splitComma]
  | cons c rest ih =>
    have hc : c ≠ ',' := h c (List.mem_cons_self c rest)
    have ih' := ih (fun d hd => h d (List.mem_cons_of_mem _ hd))
    rw [List.cons_append]
    simp only [splitComma]
    rw [if_neg hc, ih']

/-- Splitting inverts joining for a nonempty list of comma-free parts. -/

theorem splitComma_joinComma (parts : List (List Char))
    (hne : parts ≠ [])
    (hfree : ∀ p ∈ parts, ∀ c ∈ p, c ≠ ',') :
    splitComma (joinComma parts) = parts := by
  induction parts with
  | nil => exact absurd rfl hne
  | cons p ps ih =>
    cases ps with
    | nil =>
      rw [show joinComma [p] = p from rfl]
      exact splitComma_no_comma p (hfree p (List.mem_cons_self p []))
    | cons q qs =>
      rw [show joinComma (p :: q :: qs) = p ++ ',' :: joinComma (q :: qs)
          from rfl,
        splitComma_append_comma p _ (hfree p (List.mem_cons_self p _)),
        ih (by simp) (fun r hr => hfree r (List.mem_cons_of_mem _ hr))]

/-- Parsing every rendered component recovers the rounded values. -/

theorem mapM_parseNumeric_format (vec : List ℚ) :
    (vec.map formatFixed10).mapM parseNumeric = some (vec.map round10) := by
  induction vec with
  | nil => rfl
  | cons x xs ih =>
    rw [List.map_cons, List.mapM_cons, parseNumeric_formatFixed10, ih]
    rfl

/-- Every rendered component splits as integer part, dot, ten fraction
digits. -/

theorem formatFixed10_fraction (x : ℚ) :
    ∃ pre fp, formatFixed10 x = pre ++ '.' :: fp ∧ fp.length = 10 ∧
      ∀ c ∈ fp, c.isDigit = true := by
  refine ⟨(if x < 0 then ['-'] else []) ++
      natChars ((roundHalfEven (x * 10 ^ 10)).natAbs / 10 ^ 10),
    padZeros 10 (natChars ((roundHalfEven (x * 10 ^ 10)).natAbs % 10 ^ 10)),
    ?_, ?_, ?_⟩
  · rw [formatFixed10_eq, List.append_assoc]
  · exact padZeros_length 10 _
      (natChars_length_le _ 10 (by norm_num) (Nat.mod_lt _ (by positivity)))
  · exact padZeros_all_digits 10 _ (natChars_all_digits _)

/-- A rendered component is never empty. -/

theorem formatFixed10_ne_nil (x : ℚ) : formatFixed10 x ≠ [] := by
  rw [formatFixed10_eq]
  intro h
  rcases List.append_eq_nil.mp h with ⟨h1, h2⟩
  cases h2

/-- A join headed by a nonempty part is nonempty. -/

theorem joinComma_ne_nil (p : List Char) (ps : List (List Char))
    (hp : p ≠ []) : joinComma (p :: ps) ≠ [] := by
  cases ps with
  | nil => simpa [joinComma] using hp
  | cons q qs =>
    rw [show joinComma (p :: q :: qs) = p ++ ',' :: joinComma (q :: qs)
      from rfl]
    simp

/-- **C9.** Serializing any list of numbers with `to_pgvector_literal` yields
the bracketed comma-separated literal of its per-element fixed-point renders,
each render carrying exactly ten fraction digits after its decimal point, and
the test-suite parse of that literal returns the list of original values
rounded to ten decimal places. -/

theorem to_pgvector_literal_round_trip (vec : List ℚ) :
    (to_pgvector_literal vec).toList =
        '[' :: (joinComma (vec.map formatFixed10) ++ [']']) ∧
    (∀ p ∈ vec.map formatFixed10, ∃ pre fp, p = pre ++ '.' :: fp ∧
        fp.length = 10 ∧ ∀ c ∈ fp, c.isDigit = true) ∧
    parse_vector_literal (to_pgvector_literal vec) = some (vec.map round10) := by
  refine ⟨mk_toList _, ?_, ?_⟩
  · intro p hp
    rcases List.mem_map.mp hp with ⟨x, _, rfl⟩
    exact formatFixed10_fraction x
  · cases vec with
    | nil => rfl
    | cons x xs =>
      have hparts : ∀ c ∈ joinComma ((x :: xs).map formatFixed10),
          (['[', ']'] : List Char).contains c = false := by
        intro c hc
        rcases joinComma_mem _ c hc with rfl | ⟨p, hp, hcp⟩
        · decide
        · rcases List.mem_map.mp hp with ⟨y, _, rfl⟩
          exact (formatFixed10_free y c hcp).2
      have hfree : ∀ p ∈ (x :: xs).map formatFixed10, ∀ c ∈ p, c ≠ ',' := by
        intro p hp c hcp
        rcases List.mem_map.mp hp with ⟨y, _, rfl⟩
        exact (formatFixed10_free y c hcp).1
      have hne : joinComma ((x :: xs).map formatFixed10) ≠ [] := by
        rw [List.map_cons]
        exact joinComma_ne_nil _ _ (formatFixed10_ne_nil x)
      have htl : (to_pgvector_literal (x :: xs)).toList =
          '[' :: (joinComma ((x :: xs).map formatFixed10) ++ [']']) :=
        mk_toList _
      simp only [parse_vector_literal]
      rw [htl, pyStripSet_wrap _ hparts,
        if_neg (by simpa [List.isEmpty_iff] using hne),
        splitComma_joinComma _ (by simp) hfree, mapM_parseNumeric_format]
